import Mathlib

/-! # GPS station (gps.h / gps.cpp): shallow embedding

The development follows the source:

* `CircularBuffer`  – the byte queue between the receive interrupt and `update()`;
* `State`           – the members of `class GPS` (published sample, framer state,
                      interrupt flags) together with the bytes the serial peripheral
                      currently offers to `SerialBase::_base_getc`;
* `rx_irq`          – the receive interrupt handler (gps.cpp 160-172);
* `readSentence`    – the sentence framer (gps.cpp 80-131);
* `sscanf`          – the C library scanner, restricted to the directives that
                      `GGA_SENTENCE_FORMAT` uses;
* `update`          – the polling entry point (gps.cpp 13-78).

Numbers: `int` members are `Int`; what `%d` stores into them is reduced into the 32-bit
range (`int32`) and the conversion `int(x)` saturates at the ends of that range
(`truncToInt`).  `size_t`/`uint32_t` members are `Nat` (the checksum is reduced modulo
`2 ^ 32` where it is stored), finite `float` values are the rationals they denote and every
conversion into `float` goes through `f32round` (round to nearest, ties to even, 24
significant bits).  The uninitialised locals of `update` are parameters.

Memory: `_sentence_buffer` is the list of its 256 bytes.  A store through `ptr` at an offset
of 256 or more is outside the array; C gives such a store no meaning (in the object it
would land on the members declared after the array, `_state` first), and the model, which
has no memory behind the array, leaves the array as it is.  The definitions follow the code
as long as every store is below offset 256.  The statements on the round trip and on one
sentence per call state that bound; the code itself does not keep the write cursor below it.
-/

namespace GPS

/-! ## Constants and enumerations (gps.h) -/

/-- The macro `MAX_SENTENCE_SIZE` (gps.h 14). -/
def MAX_SENTENCE_SIZE : Nat := 84

/-- Size of the array `char _sentence_buffer[256]` (gps.h 103). -/
def SENTENCE_BUFFER_SIZE : Nat := 256

/-- The enumeration `InputState` (gps.h 37-43). -/
inductive InputState
  | LOOK_FOR_DOLLA
  | READING_MESSAGE
  | MESSAGE_READ
  | MESSAGE_OVERFLOW
deriving DecidableEq, Repr

/-- Integer values of `enum class FixType : int` (gps.h 27-35). -/
def FIX_NOT_AVAILABLE : Int := 0

/-- Integer value of `FixType::GPS_FIX`. -/
def GPS_FIX : Int := 1

/-- Integer value of `FixType::DGPS_FIX`. -/
def DGPS_FIX : Int := 2

/-- Integer value of `FixType::PPS_FIX`. -/
def PPS_FIX : Int := 3

/-- Integer value of `FixType::RTK_FIX`. -/
def RTK_FIX : Int := 4

/-- Integer value of `FixType::RTK_FLOAT`. -/
def RTK_FLOAT : Int := 5

/-! ## The ring buffer (`mbed::CircularBuffer<char, N>`)

Only its interface is used by gps.cpp: `empty`, `full`, `push`, `pop`.  The queue is the
list of stored bytes, oldest first. -/

/-- A bounded byte queue.  `capacity` is the template argument
`MBED_CONF_DRIVERS_UART_SERIAL_RXBUF_SIZE`, which the repository does not fix. -/
structure CircularBuffer where
  capacity : Nat
  data : List Char
deriving DecidableEq, Repr

namespace CircularBuffer

/-- The method `CircularBuffer::empty()`. -/
def empty (b : CircularBuffer) : Bool := b.data.isEmpty

/-- The method `CircularBuffer::full()`. -/
def full (b : CircularBuffer) : Bool := decide (b.capacity ≤ b.data.length)

/-- The method `CircularBuffer::push(data)`: appends; on a full buffer the oldest byte is
overwritten. -/
def push (b : CircularBuffer) (c : Char) : CircularBuffer :=
  if b.full then { b with data := b.data.tail ++ [c] } else { b with data := b.data ++ [c] }

/-- The method `CircularBuffer::pop(data)`: removes the oldest byte, if there is one. -/
def pop (b : CircularBuffer) : Option (Char × CircularBuffer) :=
  match b.data with
  | [] => none
  | c :: rest => some (c, { b with data := rest })

end CircularBuffer

/-! ## The object state (gps.h 50-112) -/

/-- Members of `class GPS`.  `serial_rx` is the environment: the bytes that the serial
peripheral holds ready, i.e. `SerialBase::readable()` is `serial_rx ≠ []` and
`SerialBase::_base_getc()` removes its head.  The transmit side (`_txbuf`, `tx_irq`) takes
no part in `update()` and is left out, as is the mutex.  The `int` members (`hour`,
`minutes`, `seconds`, `fix`, `nsats`, `diff_ref_station`) are 32 bits wide: what `%d` stores
goes through `int32`, the time of day through `truncToInt`.  The `float` members hold
finite values; a number beyond `FLT_MAX`, which `%f` would store as an infinity, is not
represented (see `Num.Finite`). -/
structure State where
  hour : Int
  minutes : Int
  seconds : Int
  latitude : ℚ
  ns : Char
  longitude : ℚ
  ew : Char
  fix : Int
  nsats : Int
  hdop : ℚ
  alt : ℚ
  geoid : ℚ
  age_of_diff : ℚ
  diff_ref_station : Int
  checksum : Nat
  _sentence_buffer : List Char
  _state : InputState
  _data_read : Nat
  _rx_irq_enabled : Bool
  _rx_enabled : Bool
  _rxbuf : CircularBuffer
  serial_rx : List Char

/-- The NUL character. -/
def NUL : Char := Char.ofNat 0

/-- The constructor `GPS::GPS` (gps.cpp 5-9) with the default member initialisers of gps.h:
every published field is zero, the framer looks for `$`, the ring buffer is empty and
`enable_rx_irq()` has armed the receive interrupt.  `mem` is the indeterminate initial
content of `_sentence_buffer`, `cap` the ring-buffer capacity. -/
def construct (mem : List Char) (cap : Nat) : State :=
  { hour := 0, minutes := 0, seconds := 0
    latitude := 0, ns := NUL, longitude := 0, ew := NUL
    fix := FIX_NOT_AVAILABLE
    nsats := 0, hdop := 0, alt := 0, geoid := 0
    age_of_diff := 0, diff_ref_station := 0, checksum := 0
    _sentence_buffer := mem
    _state := InputState.LOOK_FOR_DOLLA
    _data_read := 0
    _rx_irq_enabled := true
    _rx_enabled := true
    _rxbuf := { capacity := cap, data := [] }
    serial_rx := [] }

/-! ## Interrupt side (gps.cpp 136-172) -/

/-- The method `GPS::enable_rx_irq` (gps.cpp 136-140). -/
def enable_rx_irq (g : State) : State := { g with _rx_irq_enabled := true }

/-- The method `GPS::disable_rx_irq` (gps.cpp 142-146). -/
def disable_rx_irq (g : State) : State := { g with _rx_irq_enabled := false }

/-- The loop of `rx_irq` (gps.cpp 164-167): move bytes from the peripheral into the ring
buffer while the buffer is not full and the peripheral is readable. -/
def rx_fill : List Char → CircularBuffer → List Char × CircularBuffer
  | [], b => ([], b)
  | c :: hw, b => if b.full then (c :: hw, b) else rx_fill hw (b.push c)

/-- The method `GPS::rx_irq` (gps.cpp 160-172). -/
def rx_irq (g : State) : State :=
  let r := rx_fill g.serial_rx g._rxbuf
  let g1 := { g with serial_rx := r.1, _rxbuf := r.2 }
  if g1._rx_irq_enabled && g1._rxbuf.full then disable_rx_irq g1 else g1

/-! ## The framer (gps.cpp 80-131) -/

/-- The `while (!_rxbuf.empty())` loop of `readSentence` (gps.cpp 95-120), by recursion on
the bytes still queued.  `ptr` is the offset of the local `char *ptr` into
`_sentence_buffer`; a store through it is `List.set`.  The result carries the flag
`true` when the loop left through the `return` of line 109.

The loop has no bound on `ptr`.  At an offset below `SENTENCE_BUFFER_SIZE` the store is the
one the code performs.  At a larger offset the code writes behind the array, which C leaves
undefined and which this function does not follow: `List.set` leaves the list as it is
there, so from the first such store on the result says nothing about the code. -/
def readLoop (g : State) (ptr : Nat) : List Char → State × Bool
  | [] => ({ g with _rxbuf := { g._rxbuf with data := [] } }, false)
  | ch :: rest =>
    match g._state with
    | InputState.LOOK_FOR_DOLLA =>
      if ch = '$' then readLoop { g with _state := InputState.READING_MESSAGE } ptr rest
      else readLoop g ptr rest
    | InputState.READING_MESSAGE =>
      if ch = '\r' then
        ({ g with _sentence_buffer := g._sentence_buffer.set ptr NUL
                  _state := InputState.MESSAGE_READ
                  _rxbuf := { g._rxbuf with data := rest } }, true)
      else
        readLoop { g with _sentence_buffer := g._sentence_buffer.set ptr ch
                          _data_read := g._data_read + 1 } (ptr + 1) rest
    | _ => readLoop g ptr rest

/-- The critical section that ends `readSentence` (gps.cpp 122-130). -/
def rearm (g : State) : State :=
  if g._rx_enabled && !g._rx_irq_enabled then
    let g1 := rx_irq g
    if !g1._rxbuf.full then enable_rx_irq g1 else g1
  else g

/-- The method `GPS::readSentence` (gps.cpp 80-131).  A call is one step of the model: bytes
that the interrupt queues while the call runs count as queued after it. -/
def readSentence (g : State) : State :=
  if g._data_read = MAX_SENTENCE_SIZE then
    { g with _state := InputState.MESSAGE_OVERFLOW }
  else
    let r := readLoop g g._data_read g._rxbuf.data
    if r.2 then r.1 else rearm r.1

/-! ## `float` arithmetic

A finite `float` is the rational it denotes.  `f32round` is the rounding that every
conversion into a `float` performs: to the nearest number with a 24-bit significand and an
exponent of at least `-126` (so subnormals are included), ties to even.  Overflow to
infinity is not represented. -/

/-- Halving counter: `log2Fuel n n` is the index of the leading binary digit of `n`. -/
def log2Fuel : Nat → Nat → Nat
  | 0, _ => 0
  | f + 1, n => if n < 2 then 0 else log2Fuel f (n / 2) + 1

/-- Index of the leading binary digit: `2 ^ ilog2 n ≤ n < 2 ^ (ilog2 n + 1)` for `1 ≤ n`. -/
def ilog2 (n : Nat) : Nat := log2Fuel n n

/-- Binade of a non-zero rational `q`: the `e` with `2 ^ e ≤ |q| < 2 ^ (e + 1)`. -/
def binade (q : ℚ) : Int :=
  let k : Int := (ilog2 q.num.natAbs : Int) - (ilog2 q.den : Int)
  if (2 : ℚ) ^ k ≤ |q| then k else k - 1

/-- Nearest integer, ties to the even neighbour. -/
def roundHalfEven (x : ℚ) : Int :=
  let f : Int := ⌊x⌋
  let r : ℚ := x - f
  if r < 1 / 2 then f else if 1 / 2 < r then f + 1 else if f % 2 = 0 then f else f + 1

/-- Rounding to `float` (IEEE-754 binary32, round to nearest even). -/
def f32round (q : ℚ) : ℚ :=
  if q = 0 then 0
  else
    let e : Int := max (binade q) (-126)
    let ulp : ℚ := (2 : ℚ) ^ (e - 23)
    (roundHalfEven (q / ulp) : ℚ) * ulp

/-- The largest value of a 32-bit `int`. -/
def INT_MAX : Int := 2 ^ 31 - 1

/-- The smallest value of a 32-bit `int`. -/
def INT_MIN : Int := -2 ^ 31

/-- Reduction of an integer into the range of a 32-bit `int` (two's complement): what a
store of the low 32 bits keeps. -/
def int32 (v : Int) : Int := (v + 2 ^ 31) % 2 ^ 32 - 2 ^ 31

/-- The conversion `int(x)` of a `float`: truncation toward zero.  Beyond the range of
`int` C leaves the conversion undefined; there the result saturates, as the conversion
instruction of the target processors does, so that it is an `int` in every case.  The time
of day, the only value converted, is far inside the range. -/
def truncToInt (x : ℚ) : Int := max INT_MIN (min INT_MAX (x.num.tdiv x.den))

/-! ## The scanner (`sscanf` of the C library)

`sscanf` is modelled after ISO C 7.21.6.2 for the directives that occur in
`GGA_SENTENCE_FORMAT`: ordinary characters, `%*c`, `%c`, `%f`, `%d` and `%lx`.  A
conversion reads the longest input that is a prefix of a matching sequence and fails when
that input is not itself a matching sequence.  For `%f` the matching sequences are the
decimal floating constants (optional sign, digits with an optional point, optional
exponent); the `INF`, `NAN` and hexadecimal spellings are not modelled. -/

/-- The value `EOF` returned by `sscanf`. -/
def EOF : Int := -1

/-- The directives of a format string. -/
inductive Directive
  | lit (c : Char)
  | skipc
  | convc
  | convf
  | convd
  | convlx
deriving DecidableEq, Repr

/-- A converted input item, as stored through the matching pointer argument. -/
inductive Val
  | chr (c : Char)
  | flt (x : ℚ)
  | int (n : Int)
  | ulong (n : Nat)
deriving DecidableEq, Repr

/-- Splits a format string into directives. -/
def parseFormat : List Char → List Directive
  | [] => []
  | '%' :: '*' :: 'c' :: r => Directive.skipc :: parseFormat r
  | '%' :: 'c' :: r => Directive.convc :: parseFormat r
  | '%' :: 'f' :: r => Directive.convf :: parseFormat r
  | '%' :: 'd' :: r => Directive.convd :: parseFormat r
  | '%' :: 'l' :: 'x' :: r => Directive.convlx :: parseFormat r
  | c :: r => Directive.lit c :: parseFormat r

/-- The constant `GPS::GGA_SENTENCE_FORMAT` (gps.cpp 3). -/
def GGA_SENTENCE_FORMAT : String :=
  "%*c%*cGGA,%f,%f,%c,%f,%c,%d,%d,%f,%f,%*c,%f,%*c,%f,%d*%lx"

/-- The C predicate `isspace` in the "C" locale. -/
def isspace (c : Char) : Bool :=
  c = ' ' || c = '\t' || c = '\n' || c = Char.ofNat 11 || c = Char.ofNat 12 || c = '\r'

/-- Decimal digit test. -/
def isdigit (c : Char) : Bool := decide ('0' ≤ c ∧ c ≤ '9')

/-- Hexadecimal digit test. -/
def isxdigit (c : Char) : Bool :=
  isdigit c || decide ('a' ≤ c ∧ c ≤ 'f') || decide ('A' ≤ c ∧ c ≤ 'F')

/-- Value of a decimal digit. -/
def digitVal (c : Char) : Nat := c.toNat - '0'.toNat

/-- Value of a hexadecimal digit. -/
def xdigitVal (c : Char) : Nat :=
  if isdigit c then c.toNat - '0'.toNat
  else if 'a' ≤ c ∧ c ≤ 'f' then c.toNat - 'a'.toNat + 10
  else c.toNat - 'A'.toNat + 10

/-- Value of a string of decimal digits. -/
def decVal (ds : List Char) : Nat := ds.foldl (fun a c => 10 * a + digitVal c) 0

/-- Value of a string of hexadecimal digits. -/
def hexVal (ds : List Char) : Nat := ds.foldl (fun a c => 16 * a + xdigitVal c) 0

/-- Optional sign: `true` for a leading minus. -/
def scanSign : List Char → Bool × List Char
  | '-' :: r => (true, r)
  | '+' :: r => (false, r)
  | s => (false, s)

/-- A decimal integer: optional sign and a non-empty run of decimal digits, with the number
it denotes. -/
def scanInteger (s : List Char) : Option (Int × List Char) :=
  let sg := scanSign s
  let ds := sg.2.takeWhile isdigit
  if ds.isEmpty then none
  else some (if sg.1 then -(decVal ds : Int) else (decVal ds : Int), sg.2.dropWhile isdigit)

/-- The item of `%d`, as stored into an `int`.  A number within the range of `int` is stored
as it is; for a number beyond it, where C leaves the result undefined, the low 32 bits are
kept. -/
def scanInt (s : List Char) : Option (Int × List Char) :=
  (scanInteger s).map (fun p => (int32 p.1, p.2))

/-- Skips the optional `0x` / `0X` of a hexadecimal item. -/
def scanHexMark : List Char → List Char
  | '0' :: 'x' :: r => r
  | '0' :: 'X' :: r => r
  | s => s

/-- The item of `%lx`: optional sign, optional `0x`, a non-empty run of hexadecimal digits.
The value is stored into the 32-bit `checksum`, a minus sign negating it modulo `2 ^ 32`. -/
def scanHex (s : List Char) : Option (Nat × List Char) :=
  let sg := scanSign s
  let body := scanHexMark sg.2
  let ds := body.takeWhile isxdigit
  if ds.isEmpty then none
  else
    let v := hexVal ds % 2 ^ 32
    some (if sg.1 then (2 ^ 32 - v) % 2 ^ 32 else v, body.dropWhile isxdigit)

/-- Exponent part of a decimal floating constant: absent (exponent `0`), or `e`/`E` with an
optional sign and at least one digit; `none` when the `e` is not followed by digits. -/
def scanExponent : List Char → Option (Int × List Char)
  | [] => some (0, [])
  | c :: r =>
    if c = 'e' ∨ c = 'E' then
      match scanInteger r with
      | some (v, rest) => some (v, rest)
      | none => none
    else some (0, c :: r)

/-- Fraction part: the digits after a decimal point, if there is a point. -/
def scanFraction : List Char → List Char × List Char
  | '.' :: r => (r.takeWhile isdigit, r.dropWhile isdigit)
  | s => ([], s)

/-- An unsigned decimal floating constant (digits with an optional point, optional
exponent) and the number it denotes. -/
def scanDecimal (s : List Char) : Option (ℚ × List Char) :=
  let ip := s.takeWhile isdigit
  let fr := scanFraction (s.dropWhile isdigit)
  if ip.isEmpty && fr.1.isEmpty then none
  else
    match scanExponent fr.2 with
    | none => none
    | some (ex, rest) =>
      some ((decVal (ip ++ fr.1) : ℚ) * (10 : ℚ) ^ (ex - (fr.1.length : Int)), rest)

/-- The item of `%f`, converted as by `strtof`. -/
def scanFloat (s : List Char) : Option (ℚ × List Char) :=
  let sg := scanSign s
  match scanDecimal sg.2 with
  | none => none
  | some (m, rest) => some (f32round (if sg.1 then -m else m), rest)

/-- Outcome of one directive. -/
inductive Step
  | inputFailure
  | matchFailure
  | matched (v : Option Val) (rest : List Char)

/-- Wraps the outcome of a conversion that skips leading white space. -/
def convStep (scan : List Char → Option (Val × List Char)) (inp : List Char) : Step :=
  match inp.dropWhile isspace with
  | [] => Step.inputFailure
  | c :: r =>
    match scan (c :: r) with
    | none => Step.matchFailure
    | some (v, rest) => Step.matched (some v) rest

/-- Executes one directive on the remaining input. -/
def runDirective (d : Directive) (inp : List Char) : Step :=
  match d with
  | Directive.lit c =>
    match inp with
    | [] => Step.inputFailure
    | x :: r => if x = c then Step.matched none r else Step.matchFailure
  | Directive.skipc =>
    match inp with
    | [] => Step.inputFailure
    | _ :: r => Step.matched none r
  | Directive.convc =>
    match inp with
    | [] => Step.inputFailure
    | x :: r => Step.matched (some (Val.chr x)) r
  | Directive.convf => convStep (fun s => (scanFloat s).map (fun p => (Val.flt p.1, p.2))) inp
  | Directive.convd => convStep (fun s => (scanInt s).map (fun p => (Val.int p.1, p.2))) inp
  | Directive.convlx => convStep (fun s => (scanHex s).map (fun p => (Val.ulong p.1, p.2))) inp

/-- Whether a directive is a conversion specification. -/
def Directive.isConversion : Directive → Bool
  | Directive.lit _ => false
  | _ => true

/-- Runs the directives in order.  `conv` tells whether a conversion has completed.  The
result is the list of assigned items, with the flag `true` when an input failure occurred
before the first conversion completed. -/
def scanDirectives : List Directive → List Char → Bool → Bool × List Val
  | [], _, _ => (false, [])
  | d :: ds, inp, conv =>
    match runDirective d inp with
    | Step.inputFailure => (!conv, [])
    | Step.matchFailure => (false, [])
    | Step.matched none rest => scanDirectives ds rest (conv || d.isConversion)
    | Step.matched (some v) rest =>
      let r := scanDirectives ds rest true
      (r.1, v :: r.2)

/-- The call `sscanf(s, format, ...)`: the return value and the items assigned, in argument
order. -/
def sscanf (s : List Char) (format : String) : Int × List Val :=
  let r := scanDirectives (parseFormat format.toList) s false
  (if r.1 then EOF else (r.2.length : Int), r.2)

/-- The string that a `char *` to the start of `buf` denotes: the bytes before the first
NUL. -/
def cstr (buf : List Char) : List Char := buf.takeWhile (fun c => c != NUL)

/-! ## `update` (gps.cpp 13-78) -/

/-- The objects that the thirteen pointer arguments of the `sscanf` call point to. -/
inductive Arg
  | time_raw
  | latitude
  | ns
  | longitude
  | ew
  | fix_raw
  | nsats
  | hdop
  | alt
  | geoid
  | age_of_diff
  | diff_ref_station
  | checksum
deriving DecidableEq, Repr

/-- The pointer arguments in call order (gps.cpp 39-41). -/
def callArgs : List Arg :=
  [Arg.time_raw, Arg.latitude, Arg.ns, Arg.longitude, Arg.ew, Arg.fix_raw, Arg.nsats, Arg.hdop,
   Arg.alt, Arg.geoid, Arg.age_of_diff, Arg.diff_ref_station, Arg.checksum]

/-- The two locals of `update` and the object. -/
structure Targets where
  time_raw : ℚ
  fix_raw : Int
  g : State

/-- Stores an assigned item through a pointer argument. -/
def storeArg (a : Arg) (v : Val) (t : Targets) : Targets :=
  match a, v with
  | Arg.time_raw, Val.flt x => { t with time_raw := x }
  | Arg.latitude, Val.flt x => { t with g := { t.g with latitude := x } }
  | Arg.ns, Val.chr c => { t with g := { t.g with ns := c } }
  | Arg.longitude, Val.flt x => { t with g := { t.g with longitude := x } }
  | Arg.ew, Val.chr c => { t with g := { t.g with ew := c } }
  | Arg.fix_raw, Val.int n => { t with fix_raw := n }
  | Arg.nsats, Val.int n => { t with g := { t.g with nsats := n } }
  | Arg.hdop, Val.flt x => { t with g := { t.g with hdop := x } }
  | Arg.alt, Val.flt x => { t with g := { t.g with alt := x } }
  | Arg.geoid, Val.flt x => { t with g := { t.g with geoid := x } }
  | Arg.age_of_diff, Val.flt x => { t with g := { t.g with age_of_diff := x } }
  | Arg.diff_ref_station, Val.int n => { t with g := { t.g with diff_ref_station := n } }
  | Arg.checksum, Val.ulong n => { t with g := { t.g with checksum := n } }
  | _, _ => t

/-- Stores the assigned items through the pointer arguments, in order. -/
def storeArgs : List Arg → List Val → Targets → Targets
  | a :: as, v :: vs, t => storeArgs as vs (storeArg a v t)
  | _, _, t => t

/-- The decoding part of `update` (gps.cpp 35-77), entered with `_state == MESSAGE_READ`.
`time_raw` and `fix_raw` are the indeterminate initial values of the two uninitialised
locals. -/
def decode (time_raw : ℚ) (fix_raw : Int) (g1 : State) : Bool × State :=
  let r := sscanf (cstr g1._sentence_buffer) GGA_SENTENCE_FORMAT
  let t := storeArgs callArgs r.2 { time_raw := time_raw, fix_raw := fix_raw, g := g1 }
  if 1 ≤ r.1 then
    let g2 := { t.g with _state := InputState.LOOK_FOR_DOLLA, fix := t.fix_raw }
    if g2.fix = FIX_NOT_AVAILABLE then
      (false, { g2 with longitude := 0, latitude := 0, nsats := 0, hdop := 0, alt := 0
                        geoid := 0, age_of_diff := 0, diff_ref_station := 0 })
    else
      let time_raw1 := f32round (t.time_raw + 80000)
      (true, { g2 with hour := (truncToInt time_raw1).tdiv 10000
                       minutes := ((truncToInt time_raw1).tmod 10000).tdiv 100
                       seconds := (truncToInt time_raw1).tmod 100 })
  else (false, t.g)

/-- The method `GPS::update` (gps.cpp 13-78): the framing step, the `switch` on `_state`, and the
decoding of a completed sentence. -/
def update (time_raw : ℚ) (fix_raw : Int) (g : State) : Bool × State :=
  let g1 := readSentence g
  match g1._state with
  | InputState.LOOK_FOR_DOLLA => (false, g1)
  | InputState.READING_MESSAGE => (false, g1)
  | InputState.MESSAGE_OVERFLOW =>
    (false, { g1 with _data_read := 0, _state := InputState.LOOK_FOR_DOLLA })
  | InputState.MESSAGE_READ => decode time_raw fix_raw g1

/-! ## Sentence texts

The vocabulary in which the round-trip statements are phrased: the text of a number field
and of a whole fix report, as a receiver prints them. -/

/-- The character of a decimal digit. -/
def digitChar (d : Nat) : Char := Char.ofNat (48 + d)

/-- Two-digit rendering of a number below 100. -/
def d2 (n : Nat) : List Char := [digitChar (n / 10), digitChar (n % 10)]

/-- A number field: optional minus sign, integer digits, optional point and fraction
digits. -/
structure Num where
  neg : Bool
  ip : List Char
  fp : Option (List Char)

namespace Num

/-- The digits after the point (none when there is no point). -/
def frac (n : Num) : List Char := n.fp.getD []

/-- The point and the fraction digits, as printed. -/
def fracText (n : Num) : List Char :=
  match n.fp with
  | none => []
  | some f => '.' :: f

/-- The characters of the field. -/
def text (n : Num) : List Char :=
  (if n.neg then ['-'] else []) ++ n.ip ++ n.fracText

/-- At least one integer digit, and only digits. -/
def WellFormed (n : Num) : Prop :=
  n.ip ≠ [] ∧ (∀ c ∈ n.ip, isdigit c = true) ∧ (∀ c ∈ n.frac, isdigit c = true)

/-- The `float` nearest to the number that the field denotes. -/
def value (n : Num) : ℚ :=
  let m : ℚ := (decVal (n.ip ++ n.frac) : ℚ) / (10 : ℚ) ^ n.frac.length
  f32round (if n.neg then -m else m)

end Num

/-- A whole-second UTC time field `HHMMSS.000`. -/
def timeNum (hh mm ss : Nat) : Num :=
  { neg := false, ip := d2 hh ++ d2 mm ++ d2 ss, fp := some ['0', '0', '0'] }

/-- A UTC time field `HHMMSS` followed by the fraction of a second `fr` that the receiver
prints after a point (`some []` is a bare point, `none` no point at all). -/
def timeField (hh mm ss : Nat) (fr : Option (List Char)) : Num :=
  { neg := false, ip := d2 hh ++ d2 mm ++ d2 ss, fp := fr }

/-- The input after a field does not continue the run of characters accepted by `p`. -/
def stops (p : Char → Bool) (tl : List Char) : Prop := ∀ c ∈ tl.head?, p c = false

/-- Characters that would continue a decimal floating constant. -/
def floatCont (c : Char) : Bool := isdigit c || c = '.' || c = 'e' || c = 'E'

/-- Characters that would continue a hexadecimal constant. -/
def hexCont (c : Char) : Bool := isxdigit c || c = 'x' || c = 'X'

/-- The fields of a fix report as a receiver prints them.  The time of day is `hh mm ss`
with the fraction digits `sfrac` (`HHMMSS.sss`).  The differential age may be empty
(`none`), and then the station id may be empty too; every other field is present. -/
structure Sentence where
  talker1 : Char
  talker2 : Char
  hh : Nat
  mm : Nat
  ss : Nat
  sfrac : Option (List Char)
  lat : Num
  ns : Char
  lon : Num
  ew : Char
  fixq : List Char
  nsats : List Char
  hdop : Num
  alt : Num
  altUnit : Char
  geoid : Num
  geoidUnit : Char
  age : Option Num
  station : List Char
  checksum : List Char

namespace Sentence

/-- The characters of the differential-age field. -/
def ageText (s : Sentence) : List Char :=
  match s.age with
  | none => []
  | some a => a.text

/-- The sentence between `$` and the carriage return:
`ttGGA,time,lat,N,lon,E,fix,nsats,hdop,alt,M,geoid,M,age,station*checksum`. -/
def body (s : Sentence) : List Char :=
  s.talker1 :: s.talker2 :: 'G' :: 'G' :: 'A' :: ',' ::
    ((timeField s.hh s.mm s.ss s.sfrac).text ++ ',' ::
    (s.lat.text ++ ',' :: s.ns :: ',' ::
    (s.lon.text ++ ',' :: s.ew :: ',' ::
    (s.fixq ++ ',' ::
    (s.nsats ++ ',' ::
    (s.hdop.text ++ ',' ::
    (s.alt.text ++ ',' :: s.altUnit :: ',' ::
    (s.geoid.text ++ ',' :: s.geoidUnit :: ',' ::
    (s.ageText ++ ',' ::
    (s.station ++ '*' :: s.checksum))))))))))

/-- The bytes on the wire: `$`, the body, carriage return. -/
def wire (s : Sentence) : List Char := '$' :: (s.body ++ ['\r'])

/-- A character that may stand in a single-character field: anything but the sentence
terminator and NUL. -/
def plain (c : Char) : Prop := c ≠ '\r' ∧ c ≠ NUL

/-- A non-empty run of decimal digits. -/
def digits (ds : List Char) : Prop := ds ≠ [] ∧ ∀ c ∈ ds, isdigit c = true

/-- A non-empty run of hexadecimal digits. -/
def xdigits (ds : List Char) : Prop := ds ≠ [] ∧ ∀ c ∈ ds, isxdigit c = true

/-- Every field has the shape the grammar gives it: a valid time of day with any number of
fraction digits, numbers with at least one integer digit, digit runs for the fix code and
the satellite count, a station id of digits (which may be empty when the differential age
is), hexadecimal digits for the checksum. -/
structure WellFormed (s : Sentence) : Prop where
  talker1 : plain s.talker1
  talker2 : plain s.talker2
  hh : s.hh ≤ 23
  mm : s.mm ≤ 59
  ss : s.ss ≤ 59
  sfrac : ∀ c ∈ s.sfrac.getD [], isdigit c = true
  lat : s.lat.WellFormed
  ns : plain s.ns
  lon : s.lon.WellFormed
  ew : plain s.ew
  fixq : digits s.fixq
  nsats : digits s.nsats
  hdop : s.hdop.WellFormed
  alt : s.alt.WellFormed
  altUnit : plain s.altUnit
  geoid : s.geoid.WellFormed
  geoidUnit : plain s.geoidUnit
  age : ∀ a, s.age = some a → a.WellFormed
  station : (s.age ≠ none → s.station ≠ []) ∧ ∀ c ∈ s.station, isdigit c = true
  checksum : xdigits s.checksum

/-- The time of day is a whole second: every fraction digit is `0`. -/
def WholeSecond (s : Sentence) : Prop := ∀ c ∈ s.sfrac.getD [], c = '0'

end Sentence

/-- The items that `sscanf` assigns on a well-formed sentence. -/
def Sentence.items (s : Sentence) : List Val :=
  [Val.flt (timeField s.hh s.mm s.ss s.sfrac).value, Val.flt s.lat.value, Val.chr s.ns,
   Val.flt s.lon.value, Val.chr s.ew, Val.int (int32 (decVal s.fixq)),
   Val.int (int32 (decVal s.nsats)),
   Val.flt s.hdop.value, Val.flt s.alt.value, Val.flt s.geoid.value] ++
  (match s.age with
   | none => []
   | some a => [Val.flt a.value, Val.int (int32 (decVal s.station)),
                Val.ulong (hexVal s.checksum % 2 ^ 32)])


/-! ## Auxiliary notions for the statements -/

/-- The published sample: the fifteen public data members, in declaration order. -/
def published (g : State) :
    Int × Int × Int × ℚ × Char × ℚ × Char × Int × Int × ℚ × ℚ × ℚ × ℚ × Int × Nat :=
  (g.hour, g.minutes, g.seconds, g.latitude, g.ns, g.longitude, g.ew, g.fix, g.nsats,
    g.hdop, g.alt, g.geoid, g.age_of_diff, g.diff_ref_station, g.checksum)

/-- Successive stores of `cs` through a pointer that starts at offset `p`. -/
def storeBytes (buf : List Char) (p : Nat) : List Char → List Char
  | [] => buf
  | c :: cs => storeBytes (buf.set p c) (p + 1) cs


/-- The peripheral receives `bytes` and the receive interrupt runs (`rx_irq`). -/
def receive (g : State) (bytes : List Char) : State :=
  rx_irq { g with serial_rx := g.serial_rx ++ bytes }

/-- The fix report quoted in gps.cpp 64 and in the specification:
`GPGGA,092010.000,5210.9546,N,00008.8913,E,1,07,1.3,9.7,M,47.0,M,,0000*5D`. -/
def exampleSentence : Sentence :=
  { talker1 := 'G', talker2 := 'P', hh := 9, mm := 20, ss := 10, sfrac := some ['0', '0', '0']
    lat := { neg := false, ip := ['5', '2', '1', '0'], fp := some ['9', '5', '4', '6'] }
    ns := 'N'
    lon := { neg := false, ip := ['0', '0', '0', '0', '8'], fp := some ['8', '9', '1', '3'] }
    ew := 'E'
    fixq := ['1'], nsats := ['0', '7']
    hdop := { neg := false, ip := ['1'], fp := some ['3'] }
    alt := { neg := false, ip := ['9'], fp := some ['7'] }
    altUnit := 'M'
    geoid := { neg := false, ip := ['4', '7'], fp := some ['0'] }
    geoidUnit := 'M'
    age := none, station := ['0', '0', '0', '0'], checksum := ['5', 'D'] }

/-- The same report with fix code 0. -/
def noFixSentence : Sentence := { exampleSentence with fixq := ['0'] }

/-- A station right after construction, with a zeroed sentence buffer and a ring buffer of
256 bytes (the default of `MBED_CONF_DRIVERS_UART_SERIAL_RXBUF_SIZE`). -/
def freshStation : State := construct (List.replicate SENTENCE_BUFFER_SIZE NUL) 256

/-- The framing step of an `update()` call completes a sentence: `readSentence` does not
take the overflow exit and its loop leaves through the `return` of gps.cpp 109, i.e. it
consumes a carriage return while in `READING_MESSAGE`. -/
def completes (g : State) : Bool :=
  !decide (g._data_read = MAX_SENTENCE_SIZE) && (readLoop g g._data_read g._rxbuf.data).2

/-- States reachable from construction: bytes arrive at the peripheral, the receive
interrupt runs while it is armed, the application calls `update()`. -/
inductive Reachable : State → Prop
  | construct (mem : List Char) (cap : Nat) (h : mem.length = SENTENCE_BUFFER_SIZE) :
      Reachable (construct mem cap)
  | arrive (g : State) (bytes : List Char) (h : Reachable g) :
      Reachable { g with serial_rx := g.serial_rx ++ bytes }
  | irq (g : State) (h : Reachable g) (harmed : g._rx_irq_enabled = true) :
      Reachable (rx_irq g)
  | update (g : State) (time_raw : ℚ) (fix_raw : Int) (h : Reachable g) :
      Reachable (update time_raw fix_raw g).2

/-- Between calls the framer is never in `MESSAGE_OVERFLOW`, and it rests in `MESSAGE_READ`
only over a buffer that `sscanf` rejects. -/
def FramerInv (g : State) : Prop :=
  g._state ≠ InputState.MESSAGE_OVERFLOW ∧
  (g._state = InputState.MESSAGE_READ →
    (sscanf (cstr g._sentence_buffer) GGA_SENTENCE_FORMAT).1 < 1)

/-- A later report from the same receiver: one second on, eight satellites. -/
def secondSentence : Sentence := { exampleSentence with ss := 11, nsats := ['0', '8'] }

/-- A report taken one second before midnight UTC. -/
def lateSentence : Sentence := { exampleSentence with hh := 23, mm := 59, ss := 59 }

/-- The example report cut off after the fix-type field. -/
def truncatedWire : List Char := "$GPGGA,092010.000,5210.9546,N,00008.8913,E,1\r".toList

/-- A sentence that is no fix report at all. -/
def garbageWire : List Char := "$XX\r".toList

/-- A start marker followed by 85 bytes without a carriage return. -/
def burstWire : List Char := '$' :: List.replicate 85 'A'

/-- The quoted report with fix code 7 (manual input mode in NMEA 0183). -/
def manualFixSentence : Sentence := { exampleSentence with fixq := ['7'] }

/-- A start marker and 255 further bytes without a carriage return: they fill a ring buffer
of 256 bytes. -/
def floodWire : List Char := '$' :: List.replicate 255 'A'

/-- The ring buffer holds no more than its capacity, and while the receive interrupt is
armed it is not full. -/
def Backpressure (g : State) : Prop :=
  g._rxbuf.data.length ≤ g._rxbuf.capacity ∧
  (g._rx_irq_enabled = true → g._rxbuf.data.length < g._rxbuf.capacity)

/-- The ring buffer receives `chunk` behind what it holds. -/
def enqueue (g : State) (chunk : List Char) : State :=
  { g with _rxbuf := { g._rxbuf with data := g._rxbuf.data ++ chunk } }

/-- Successive invocations of `readSentence`, each after the next chunk was queued. -/
def frameRun (g : State) : List (List Char) → State
  | [] => g
  | c :: cs => frameRun (readSentence (enqueue g c)) cs

/-- The framer between two invocations while `$ body \r` is being delivered: nothing is
queued, the bytes `pre` of the body stored so far stand at the start of the working buffer
(which was `buf0` at the beginning), the write cursor is their number, and `rest` is what is
still to come. -/
def Framing (buf0 body : List Char) (g : State) (rest : List Char) : Prop :=
  g._rxbuf.data = [] ∧ g.serial_rx = [] ∧
  ∃ pre suf, body = pre ++ suf ∧ g._sentence_buffer = storeBytes buf0 0 pre ∧
    g._data_read = pre.length ∧
    ((g._state = InputState.LOOK_FOR_DOLLA ∧ pre = [] ∧ rest = '$' :: (suf ++ ['\r'])) ∨
     (g._state = InputState.READING_MESSAGE ∧ rest = suf ++ ['\r']))

/-! # Theorems -/

/-! ### The working buffer -/

theorem storeBytes_length (cs : List Char) : ∀ (buf : List Char) (p : Nat),
    (storeBytes buf p cs).length = buf.length := by
  induction cs with
  | nil => intro buf p; rfl
  | cons c cs ih => intro buf p; simp [storeBytes, ih]

theorem storeBytes_eq (cs : List Char) : ∀ (buf : List Char) (p : Nat),
    p + cs.length ≤ buf.length →
    storeBytes buf p cs = buf.take p ++ cs ++ buf.drop (p + cs.length) := by
  induction cs with
  | nil => intro buf p _; simp [storeBytes]
  | cons c cs ih =>
    intro buf p h
    simp only [List.length_cons] at h
    have hp : p < buf.length := by omega
    rw [storeBytes, ih _ _ (by simp; omega)]
    simp only [List.length_cons]
    rw [List.set_eq_take_append_cons_drop]
    simp only [hp, if_true]
    have h1 : (buf.take p ++ c :: buf.drop (p + 1)).take (p + 1) = buf.take p ++ [c] := by
      rw [List.take_append_eq_append_take]
      simp [List.length_take, Nat.min_eq_left (Nat.le_of_lt hp)]
    have h2 : (buf.take p ++ c :: buf.drop (p + 1)).drop (p + 1 + cs.length)
        = buf.drop (p + (cs.length + 1)) := by
      rw [List.drop_append_eq_append_drop]
      have e1 : (List.take p buf).length = p := by
        simp [List.length_take, Nat.min_eq_left (Nat.le_of_lt hp)]
      have e2 : p + 1 + cs.length - p = cs.length + 1 := by omega
      have e3 : List.drop (p + 1 + cs.length) (List.take p buf) = [] := by
        apply List.drop_eq_nil_of_le; omega
      rw [e1, e2, e3, List.drop_succ_cons, List.drop_drop, List.nil_append]
      congr 1; omega
    rw [h1, h2]; simp

theorem storeBytes_append (a : List Char) : ∀ (buf : List Char) (p : Nat) (b : List Char),
    storeBytes buf p (a ++ b) = storeBytes (storeBytes buf p a) (p + a.length) b := by
  induction a with
  | nil => intro buf p b; rfl
  | cons c cs ih =>
    intro buf p b
    show storeBytes (buf.set p c) (p + 1) (cs ++ b)
      = storeBytes (storeBytes (buf.set p c) (p + 1) cs) (p + (cs.length + 1)) b
    rw [ih]
    congr 1
    omega

theorem readLoop_reading (body : List Char) (rest : List Char) :
    ∀ (g : State) (p : Nat), g._state = InputState.READING_MESSAGE →
    (∀ c ∈ body, c ≠ '\r') →
    readLoop g p (body ++ '\r' :: rest) =
      ({ g with _sentence_buffer := (storeBytes g._sentence_buffer p body).set (p + body.length) NUL
                _state := InputState.MESSAGE_READ
                _data_read := g._data_read + body.length
                _rxbuf := { g._rxbuf with data := rest } }, true) := by
  induction body with
  | nil =>
    intro g p hs _
    simp [readLoop, hs, storeBytes]
  | cons c cs ih =>
    intro g p hs hcr
    have hc : c ≠ '\r' := hcr c (List.mem_cons_self _ _)
    have hcs : ∀ x ∈ cs, x ≠ '\r' := fun x hx => hcr x (List.mem_cons_of_mem _ hx)
    rw [List.cons_append]
    simp only [readLoop, hs, hc, if_false]
    rw [ih _ _ ?_ hcs]
    · simp only [storeBytes, List.length_cons]
      have e1 : p + 1 + cs.length = p + (cs.length + 1) := by omega
      have e2 : g._data_read + 1 + cs.length = g._data_read + (cs.length + 1) := by omega
      rw [e1, e2]
    · rfl

theorem readLoop_dollar (g : State) (p : Nat) (rest : List Char)
    (hs : g._state = InputState.LOOK_FOR_DOLLA) :
    readLoop g p ('$' :: rest) = readLoop { g with _state := InputState.READING_MESSAGE } p rest := by
  simp [readLoop, hs]

theorem takeWhile_run (p : Char → Bool) (ds tl : List Char)
    (hds : ∀ c ∈ ds, p c = true) (htl : stops p tl) : (ds ++ tl).takeWhile p = ds := by
  rw [List.takeWhile_append_of_pos hds]
  cases tl with
  | nil => simp
  | cons c r =>
    have : p c = false := htl c (by simp)
    simp [List.takeWhile_cons, this]

theorem dropWhile_run (p : Char → Bool) (ds tl : List Char)
    (hds : ∀ c ∈ ds, p c = true) (htl : stops p tl) : (ds ++ tl).dropWhile p = tl := by
  rw [List.dropWhile_append_of_pos hds]
  cases tl with
  | nil => simp
  | cons c r =>
    have : p c = false := htl c (by simp)
    simp [List.dropWhile_cons, this]

theorem stops_of_floatCont (tl : List Char) (h : stops floatCont tl) : stops isdigit tl := by
  intro c hc
  have := h c hc
  simp only [floatCont, Bool.or_eq_false_iff] at this
  exact this.1.1.1

theorem isdigit_not_sign (c : Char) (h : isdigit c = true) : c ≠ '-' ∧ c ≠ '+' := by
  constructor <;> (intro e; subst e; revert h; decide)

theorem isdigit_not_space (c : Char) (h : isdigit c = true) : isspace c = false := by
  simp only [isdigit, decide_eq_true_eq] at h
  simp only [isspace, Bool.or_eq_false_iff, decide_eq_false_iff_not]
  have h1 : (48 : Nat) ≤ c.toNat := by
    have := h.1; rwa [Char.le_def] at this
  refine ⟨⟨⟨⟨⟨?_, ?_⟩, ?_⟩, ?_⟩, ?_⟩, ?_⟩ <;>
    (intro e; subst e; revert h1; decide)

theorem scanSign_digit (c : Char) (l : List Char) (h : isdigit c = true) :
    scanSign (c :: l) = (false, c :: l) := by
  have hs := isdigit_not_sign c h
  unfold scanSign
  split
  · rename_i heq; injection heq with h1 _; exact absurd h1 hs.1
  · rename_i heq; injection heq with h1 _; exact absurd h1 hs.2
  · rfl

theorem scanInt_digits (ds tl : List Char) (hne : ds ≠ []) (hds : ∀ c ∈ ds, isdigit c = true)
    (htl : stops isdigit tl) : scanInt (ds ++ tl) = some (int32 (decVal ds : Int), tl) := by
  obtain ⟨d, ds', rfl⟩ := List.exists_cons_of_ne_nil hne
  have hd : isdigit d = true := hds d (List.mem_cons_self _ _)
  unfold scanInt scanInteger
  rw [List.cons_append, scanSign_digit d _ hd, ← List.cons_append]
  simp only [takeWhile_run isdigit _ tl hds htl, dropWhile_run isdigit _ tl hds htl]
  simp

theorem scanFraction_none (tl : List Char) (htl : stops floatCont tl) :
    scanFraction tl = ([], tl) := by
  unfold scanFraction
  split
  · have := htl '.' (by simp)
    exact absurd this (by decide)
  · rfl

theorem scanFraction_some (f tl : List Char) (hf : ∀ c ∈ f, isdigit c = true)
    (htl : stops floatCont tl) : scanFraction ('.' :: (f ++ tl)) = (f, tl) := by
  have hd := stops_of_floatCont tl htl
  simp only [scanFraction, takeWhile_run isdigit f tl hf hd, dropWhile_run isdigit f tl hf hd]

theorem scanExponent_none (tl : List Char) (htl : stops floatCont tl) :
    scanExponent tl = some (0, tl) := by
  cases tl with
  | nil => rfl
  | cons c r =>
    have := htl c (by simp)
    simp only [floatCont, Bool.or_eq_false_iff, decide_eq_false_iff_not] at this
    simp [scanExponent, this.1.2, this.2]

theorem scanDecimal_text (n : Num) (hn : n.WellFormed) (tl : List Char)
    (htl : stops floatCont tl) :
    scanDecimal (n.ip ++ (n.fracText ++ tl)) =
      some ((decVal (n.ip ++ n.frac) : ℚ) / (10 : ℚ) ^ n.frac.length, tl) := by
  obtain ⟨neg, ip, fp⟩ := n
  obtain ⟨hne, hip, hfp⟩ := hn
  have hne' : ip.isEmpty = false := by cases ip <;> simp_all
  unfold scanDecimal
  cases fp with
  | none =>
    have hs : stops isdigit ([] ++ tl) := by simpa using stops_of_floatCont tl htl
    simp only [Num.fracText, Num.frac, Option.getD_none, takeWhile_run isdigit _ _ hip hs,
      dropWhile_run isdigit _ _ hip hs]
    simp only [List.nil_append, scanFraction_none tl htl, scanExponent_none tl htl]
    simp [hne']
  | some f =>
    have hs : stops isdigit ('.' :: f ++ tl) := by
      intro c hc; simp at hc; subst hc; decide
    have hf : ∀ c ∈ f, isdigit c = true := by simpa [Num.frac] using hfp
    simp only [Num.fracText, Num.frac, Option.getD_some, takeWhile_run isdigit _ _ hip hs,
      dropWhile_run isdigit _ _ hip hs]
    simp only [List.cons_append, scanFraction_some f tl hf htl, scanExponent_none tl htl]
    simp [hne', div_eq_mul_inv]

theorem scanFloat_text (n : Num) (hn : n.WellFormed) (tl : List Char) (htl : stops floatCont tl) :
    scanFloat (n.text ++ tl) = some (n.value, tl) := by
  have key := scanDecimal_text n hn tl htl
  obtain ⟨d, ds, hip⟩ := List.exists_cons_of_ne_nil hn.1
  have hd : isdigit d = true := hn.2.1 d (by rw [hip]; exact List.mem_cons_self _ _)
  unfold scanFloat Num.text Num.value
  cases hneg : n.neg with
  | false =>
    simp only [Bool.false_eq_true, if_false, List.nil_append, List.append_assoc]
    rw [hip, List.cons_append, scanSign_digit d _ hd, ← List.cons_append, ← hip]
    simp only [key, Bool.false_eq_true, if_false]
  | true =>
    simp only [if_true, List.append_assoc, List.cons_append, List.nil_append, scanSign]
    simp only [key, if_true]

/-! ### `float` rounding is exact on small integers -/

theorem log2Fuel_spec : ∀ (f n : Nat), n ≤ f → 1 ≤ n →
    2 ^ log2Fuel f n ≤ n ∧ n < 2 ^ (log2Fuel f n + 1) := by
  intro f
  induction f with
  | zero => intro n h1 h2; omega
  | succ f ih =>
    intro n h1 h2
    unfold log2Fuel
    by_cases hn : n < 2
    · have : n = 1 := by omega
      subst this; simp
    · simp only [hn, if_false]
      have hle : n / 2 ≤ f := by omega
      have hpos : 1 ≤ n / 2 := by omega
      obtain ⟨a, b⟩ := ih (n / 2) hle hpos
      constructor
      · rw [pow_succ]; omega
      · rw [pow_succ]; omega

theorem ilog2_spec (n : Nat) (h : 1 ≤ n) : 2 ^ ilog2 n ≤ n ∧ n < 2 ^ (ilog2 n + 1) :=
  log2Fuel_spec n n (le_refl n) h

theorem roundHalfEven_intCast (m : Int) : roundHalfEven (m : ℚ) = m := by
  simp [roundHalfEven]

theorem binade_natCast (n : Nat) (h : 1 ≤ n) : binade (n : ℚ) = (ilog2 n : Int) := by
  have hs := (ilog2_spec n h).1
  have h1 : ilog2 1 = 0 := by decide
  unfold binade
  simp only [Rat.num_natCast, Int.natAbs_ofNat, Rat.den_natCast, h1, Nat.cast_zero, sub_zero]
  have : (2 : ℚ) ^ (ilog2 n : Int) ≤ |(n : ℚ)| := by
    rw [abs_of_nonneg (by positivity), zpow_natCast]
    exact_mod_cast hs
  rw [if_pos this]

/-- Every natural number below `2 ^ 24` is a `float`. -/
theorem f32round_natCast (n : Nat) (h : n < 2 ^ 24) : f32round (n : ℚ) = n := by
  unfold f32round
  by_cases h0 : (n : ℚ) = 0
  · simp [h0]
  · have hpos : 1 ≤ n := by
      rcases Nat.eq_zero_or_pos n with h | h
      · exact absurd (by simp [h]) h0
      · exact h
    obtain ⟨hlo, _⟩ := ilog2_spec n hpos
    have hk : ilog2 n ≤ 23 := by
      by_contra hc
      have : 2 ^ 24 ≤ 2 ^ ilog2 n := Nat.pow_le_pow_right (by norm_num) (by omega)
      omega
    simp only [h0, if_false, binade_natCast n hpos]
    have hmax : max (ilog2 n : Int) (-126) = (ilog2 n : Int) := by omega
    rw [hmax]
    have hulp : (2 : ℚ) ^ ((ilog2 n : Int) - 23) = ((2 ^ (23 - ilog2 n) : Nat) : ℚ)⁻¹ := by
      have : ((ilog2 n : Int) - 23) = -((23 - ilog2 n : Nat) : Int) := by omega
      rw [this, zpow_neg, zpow_natCast]; push_cast; rfl
    rw [hulp, div_inv_eq_mul]
    have : ((n : ℚ) * ((2 ^ (23 - ilog2 n) : Nat) : ℚ)) = (((n * 2 ^ (23 - ilog2 n) : Nat) : Int) : ℚ) := by
      push_cast; rfl
    rw [this, roundHalfEven_intCast]
    push_cast
    field_simp

theorem int32_of_range (v : Int) (h0 : 0 ≤ v) (h1 : v ≤ INT_MAX) : int32 v = v := by
  unfold INT_MAX at h1
  unfold int32
  omega

theorem truncToInt_natCast (n : Nat) (h : n < 2 ^ 31) : truncToInt (n : ℚ) = n := by
  simp only [truncToInt, INT_MIN, INT_MAX, Rat.num_natCast, Rat.den_natCast, Nat.cast_one,
    Int.tdiv_one]
  omega

theorem roundHalfEven_ge (m : Int) (y : ℚ) (h : (m : ℚ) ≤ y) : m ≤ roundHalfEven y := by
  have hf : m ≤ ⌊y⌋ := Int.le_floor.mpr h
  unfold roundHalfEven
  simp only []
  split_ifs <;> omega

theorem roundHalfEven_le (m : Int) (y : ℚ) (h : y ≤ (m : ℚ)) : roundHalfEven y ≤ m := by
  rcases eq_or_lt_of_le h with h | h
  · rw [h, roundHalfEven_intCast]
  · have hf : ⌊y⌋ < m := Int.floor_lt.mpr h
    unfold roundHalfEven
    simp only []
    split_ifs <;> omega

theorem binade_le (q : ℚ) (h : q ≠ 0) : (2 : ℚ) ^ binade q ≤ |q| := by
  unfold binade
  simp only []
  split_ifs with hk
  · exact hk
  · have hn : 1 ≤ q.num.natAbs := by
      have := Rat.num_ne_zero.mpr h
      omega
    have hd : 1 ≤ q.den := q.den_pos
    obtain ⟨ha, _⟩ := ilog2_spec _ hn
    obtain ⟨_, hb⟩ := ilog2_spec _ hd
    have habs : |q| = (q.num.natAbs : ℚ) / (q.den : ℚ) := by
      conv_lhs => rw [← Rat.num_div_den q]
      rw [abs_div, Nat.cast_natAbs, Int.cast_abs]
      simp
    have hden : (0 : ℚ) < (q.den : ℚ) := by exact_mod_cast q.den_pos
    rw [habs, le_div_iff₀ hden]
    have e : (2 : ℚ) ^ ((ilog2 q.num.natAbs : Int) - (ilog2 q.den : Int) - 1)
        * (2 : ℚ) ^ (((ilog2 q.den + 1 : Nat) : Int)) = (2 : ℚ) ^ (ilog2 q.num.natAbs : Int) := by
      rw [← zpow_add₀ (by norm_num)]
      congr 1
      push_cast
      ring
    have hb' : (q.den : ℚ) ≤ (2 : ℚ) ^ (((ilog2 q.den + 1 : Nat) : Int)) := by
      rw [zpow_natCast]
      exact_mod_cast hb.le
    have ha' : (2 : ℚ) ^ (ilog2 q.num.natAbs : Int) ≤ (q.num.natAbs : ℚ) := by
      rw [zpow_natCast]
      exact_mod_cast ha
    calc (2 : ℚ) ^ ((ilog2 q.num.natAbs : Int) - (ilog2 q.den : Int) - 1) * (q.den : ℚ)
        ≤ (2 : ℚ) ^ ((ilog2 q.num.natAbs : Int) - (ilog2 q.den : Int) - 1)
          * (2 : ℚ) ^ (((ilog2 q.den + 1 : Nat) : Int)) :=
          mul_le_mul_of_nonneg_left hb' (by positivity)
      _ = (2 : ℚ) ^ (ilog2 q.num.natAbs : Int) := e
      _ ≤ _ := ha'

/-- Rounding to `float` does not cross an integer below `2 ^ 24`. -/
theorem f32round_bracket (n : Nat) (x : ℚ) (hn : n + 1 < 2 ^ 24) (h1 : (n : ℚ) ≤ x)
    (h2 : x ≤ (n : ℚ) + 1) : (n : ℚ) ≤ f32round x ∧ f32round x ≤ (n : ℚ) + 1 := by
  unfold f32round
  by_cases h0 : x = 0
  · subst h0
    simp only [if_true]
    exact ⟨h1, by positivity⟩
  · simp only [h0, if_false]
    have hx : 0 < x := lt_of_le_of_ne (le_trans (Nat.cast_nonneg n) h1) (Ne.symm h0)
    have hx24 : x < (2 : ℚ) ^ (24 : Int) := by
      have : ((n + 1 : Nat) : ℚ) < ((2 ^ 24 : Nat) : ℚ) := by exact_mod_cast hn
      push_cast at this
      rw [zpow_ofNat]
      linarith
    have hb : binade x ≤ 23 := by
      by_contra hc
      have h24 : (24 : Int) ≤ binade x := by omega
      have hle := binade_le x h0
      rw [abs_of_pos hx] at hle
      have hp : (2 : ℚ) ^ (24 : Int) ≤ (2 : ℚ) ^ binade x :=
        zpow_le_zpow_right₀ (by norm_num) h24
      linarith
    obtain ⟨k, hk⟩ : ∃ k : Nat, max (binade x) (-126) - 23 = -(k : Int) :=
      ⟨(23 - max (binade x) (-126)).toNat, by omega⟩
    rw [hk, zpow_neg, zpow_natCast, div_inv_eq_mul]
    have hK : (0 : ℚ) < 2 ^ k := by positivity
    have hlo : ((n * 2 ^ k : Nat) : Int) ≤ roundHalfEven (x * 2 ^ k) := by
      apply roundHalfEven_ge
      push_cast
      exact mul_le_mul_of_nonneg_right h1 hK.le
    have hhi : roundHalfEven (x * 2 ^ k) ≤ (((n + 1) * 2 ^ k : Nat) : Int) := by
      apply roundHalfEven_le
      push_cast
      exact mul_le_mul_of_nonneg_right h2 hK.le
    have hlo' : ((n : ℚ) * 2 ^ k) ≤ (roundHalfEven (x * 2 ^ k) : ℚ) := by
      have : (((n * 2 ^ k : Nat) : Int) : ℚ) ≤ (roundHalfEven (x * 2 ^ k) : ℚ) := by
        exact_mod_cast hlo
      push_cast at this
      exact this
    have hhi' : (roundHalfEven (x * 2 ^ k) : ℚ) ≤ ((n : ℚ) + 1) * 2 ^ k := by
      have : (roundHalfEven (x * 2 ^ k) : ℚ) ≤ ((((n + 1) * 2 ^ k : Nat) : Int) : ℚ) := by
        exact_mod_cast hhi
      push_cast at this
      exact this
    constructor
    · rw [← div_eq_mul_inv, le_div_iff₀ hK]
      exact hlo'
    · rw [← div_eq_mul_inv, div_le_iff₀ hK]
      exact hhi'

/-- Truncation of a value between two neighbouring integers gives one of them. -/
theorem truncToInt_bracket (n : Nat) (z : ℚ) (hn : n + 1 < 2 ^ 31) (h1 : (n : ℚ) ≤ z)
    (h2 : z ≤ (n : ℚ) + 1) : truncToInt z = n ∨ truncToInt z = (n : Int) + 1 := by
  have hz : 0 ≤ z := le_trans (Nat.cast_nonneg n) h1
  have hnum : 0 ≤ z.num := Rat.num_nonneg.mpr hz
  have hfl : z.num.tdiv z.den = ⌊z⌋ := by
    rw [Int.tdiv_eq_ediv hnum (by positivity), Rat.floor_def]
  have hlo : (n : Int) ≤ ⌊z⌋ := Int.le_floor.mpr (by exact_mod_cast h1)
  have hhi : ⌊z⌋ ≤ (n : Int) + 1 := by
    have : ⌊z⌋ ≤ ⌊((n : ℚ) + 1)⌋ := Int.floor_mono h2
    have e : ⌊((n : ℚ) + 1)⌋ = (n : Int) + 1 := by
      have : ((n : ℚ) + 1) = (((n : Int) + 1 : Int) : ℚ) := by push_cast; rfl
      rw [this, Int.floor_intCast]
    omega
  unfold truncToInt INT_MIN INT_MAX
  rw [hfl]
  omega

/-! ### The time field -/

theorem isdigit_digitChar (d : Nat) (h : d < 10) : isdigit (digitChar d) = true := by
  interval_cases d <;> decide

theorem digitVal_digitChar (d : Nat) (h : d < 10) : digitVal (digitChar d) = d := by
  interval_cases d <;> decide

theorem d2_digits (n : Nat) (h : n < 100) : ∀ c ∈ d2 n, isdigit c = true := by
  intro c hc
  simp only [d2, List.mem_cons, List.mem_singleton, List.not_mem_nil, or_false] at hc
  rcases hc with rfl | rfl
  · exact isdigit_digitChar _ (by omega)
  · exact isdigit_digitChar _ (by omega)

theorem timeNum_wellFormed (hh mm ss : Nat) (h1 : hh < 100) (h2 : mm < 100) (h3 : ss < 100) :
    (timeNum hh mm ss).WellFormed := by
  refine ⟨by simp [timeNum, d2], ?_, ?_⟩
  · intro c hc
    simp only [timeNum, List.mem_append] at hc
    rcases hc with (hc | hc) | hc
    · exact d2_digits hh h1 c hc
    · exact d2_digits mm h2 c hc
    · exact d2_digits ss h3 c hc
  · intro c hc
    simp only [timeNum, Num.frac, Option.getD_some, List.mem_cons, List.mem_singleton,
      List.not_mem_nil, or_false, or_self] at hc
    subst hc; decide

theorem decVal_timeNum (hh mm ss : Nat) (h1 : hh < 100) (h2 : mm < 100) (h3 : ss < 100) :
    decVal ((timeNum hh mm ss).ip ++ (timeNum hh mm ss).frac)
      = (hh * 10000 + mm * 100 + ss) * 1000 := by
  have e0 : digitVal '0' = 0 := by decide
  simp only [timeNum, Num.frac, Option.getD_some, d2, decVal, List.cons_append, List.nil_append,
    List.foldl_cons, List.foldl_nil, e0,
    digitVal_digitChar (hh / 10) (by omega), digitVal_digitChar (hh % 10) (Nat.mod_lt _ (by norm_num)),
    digitVal_digitChar (mm / 10) (by omega), digitVal_digitChar (mm % 10) (Nat.mod_lt _ (by norm_num)),
    digitVal_digitChar (ss / 10) (by omega), digitVal_digitChar (ss % 10) (Nat.mod_lt _ (by norm_num))]
  omega

/-- A whole-second time field denotes the integer `HHMMSS`, which is a `float`. -/
theorem timeNum_value (hh mm ss : Nat) (h1 : hh < 100) (h2 : mm < 100) (h3 : ss < 100) :
    (timeNum hh mm ss).value = ((hh * 10000 + mm * 100 + ss : Nat) : ℚ) := by
  have hv := decVal_timeNum hh mm ss h1 h2 h3
  have hl : (timeNum hh mm ss).frac.length = 3 := rfl
  have hneg : (timeNum hh mm ss).neg = false := rfl
  unfold Num.value
  simp only [hv, hl, hneg, Bool.false_eq_true, if_false]
  have : (((hh * 10000 + mm * 100 + ss) * 1000 : Nat) : ℚ) / (10 : ℚ) ^ 3
      = ((hh * 10000 + mm * 100 + ss : Nat) : ℚ) := by
    push_cast; ring
  rw [this]
  apply f32round_natCast
  norm_num
  omega

/-- Adding the eight hours and splitting the result (gps.cpp 67-70). -/
theorem local_time (hh mm ss : Nat) (h1 : hh ≤ 23) (h2 : mm ≤ 59) (h3 : ss ≤ 59) :
    let v := truncToInt (f32round (((hh * 10000 + mm * 100 + ss : Nat) : ℚ) + 80000))
    v.tdiv 10000 = (hh : Int) + 8 ∧ (v.tmod 10000).tdiv 100 = mm ∧ v.tmod 100 = ss := by
  intro v
  have e : (((hh * 10000 + mm * 100 + ss : Nat) : ℚ) + 80000)
      = (((hh + 8) * 10000 + mm * 100 + ss : Nat) : ℚ) := by push_cast; ring
  have hv : v = (((hh + 8) * 10000 + mm * 100 + ss : Nat) : Int) := by
    show truncToInt (f32round _) = _
    rw [e, f32round_natCast _ (by norm_num; omega), truncToInt_natCast _ (by norm_num; omega)]
  rw [hv]
  refine ⟨?_, ?_, ?_⟩
  · rw [Int.tdiv_eq_ediv (by positivity) (by norm_num)]; omega
  · rw [Int.tmod_eq_emod (by positivity) (by norm_num), Int.tdiv_eq_ediv (by omega) (by norm_num)]
    omega
  · rw [Int.tmod_eq_emod (by positivity) (by norm_num)]; omega

/-! ### Time fields with a fraction of a second -/

theorem digitVal_le (c : Char) (h : isdigit c = true) : digitVal c ≤ 9 := by
  simp only [isdigit, decide_eq_true_eq] at h
  have h2 : c.toNat ≤ 57 := by
    have := h.2; rwa [Char.le_def] at this
  unfold digitVal
  have : '0'.toNat = 48 := rfl
  omega

theorem foldl_decVal (ds : List Char) : ∀ a : Nat,
    ds.foldl (fun a c => 10 * a + digitVal c) a = a * 10 ^ ds.length + decVal ds := by
  induction ds with
  | nil => intro a; simp [decVal]
  | cons d ds ih =>
    intro a
    simp only [List.foldl_cons, List.length_cons, decVal]
    rw [ih, ih (10 * 0 + digitVal d)]
    ring

theorem decVal_append (a b : List Char) :
    decVal (a ++ b) = decVal a * 10 ^ b.length + decVal b := by
  unfold decVal
  rw [List.foldl_append, foldl_decVal]
  rfl

theorem decVal_cons (d : Char) (ds : List Char) :
    decVal (d :: ds) = digitVal d * 10 ^ ds.length + decVal ds := by
  have := decVal_append [d] ds
  simpa [decVal] using this

theorem decVal_lt (ds : List Char) (h : ∀ c ∈ ds, isdigit c = true) :
    decVal ds < 10 ^ ds.length := by
  induction ds with
  | nil => simp [decVal]
  | cons d ds ih =>
    have hd := digitVal_le d (h d (List.mem_cons_self _ _))
    have hr := ih (fun c hc => h c (List.mem_cons_of_mem _ hc))
    have e : decVal (d :: ds) = digitVal d * 10 ^ ds.length + decVal ds := decVal_cons d ds
    rw [e, List.length_cons, pow_succ]
    nlinarith

theorem decVal_zeros (ds : List Char) (h : ∀ c ∈ ds, c = '0') : decVal ds = 0 := by
  induction ds with
  | nil => rfl
  | cons d ds ih =>
    have hd : d = '0' := h d (List.mem_cons_self _ _)
    have hr := ih (fun c hc => h c (List.mem_cons_of_mem _ hc))
    have e : decVal (d :: ds) = digitVal d * 10 ^ ds.length + decVal ds := decVal_cons d ds
    have e0 : digitVal '0' = 0 := by decide
    rw [e, hr, hd, e0]
    simp

theorem timeField_wellFormed (hh mm ss : Nat) (fr : Option (List Char)) (h1 : hh < 100)
    (h2 : mm < 100) (h3 : ss < 100) (hfr : ∀ c ∈ fr.getD [], isdigit c = true) :
    (timeField hh mm ss fr).WellFormed := by
  refine ⟨by simp [timeField, d2], ?_, hfr⟩
  intro c hc
  simp only [timeField, List.mem_append] at hc
  rcases hc with (hc | hc) | hc
  · exact d2_digits hh h1 c hc
  · exact d2_digits mm h2 c hc
  · exact d2_digits ss h3 c hc

theorem decVal_hms (hh mm ss : Nat) (h1 : hh < 100) (h2 : mm < 100) (h3 : ss < 100) :
    decVal (d2 hh ++ d2 mm ++ d2 ss) = hh * 10000 + mm * 100 + ss := by
  simp only [d2, decVal, List.cons_append, List.nil_append,
    List.foldl_cons, List.foldl_nil,
    digitVal_digitChar (hh / 10) (by omega), digitVal_digitChar (hh % 10) (Nat.mod_lt _ (by norm_num)),
    digitVal_digitChar (mm / 10) (by omega), digitVal_digitChar (mm % 10) (Nat.mod_lt _ (by norm_num)),
    digitVal_digitChar (ss / 10) (by omega), digitVal_digitChar (ss % 10) (Nat.mod_lt _ (by norm_num))]
  omega

/-- The `float` that `%f` stores for the time field `HHMMSS.sss` lies between the integer
`HHMMSS` and its successor, and is `HHMMSS` when the fraction is zero. -/
theorem timeField_value (hh mm ss : Nat) (fr : Option (List Char)) (h1 : hh < 100)
    (h2 : mm < 100) (h3 : ss < 100) (hfr : ∀ c ∈ fr.getD [], isdigit c = true) :
    ((hh * 10000 + mm * 100 + ss : Nat) : ℚ) ≤ (timeField hh mm ss fr).value ∧
    (timeField hh mm ss fr).value ≤ ((hh * 10000 + mm * 100 + ss : Nat) : ℚ) + 1 ∧
    ((∀ c ∈ fr.getD [], c = '0') →
      (timeField hh mm ss fr).value = ((hh * 10000 + mm * 100 + ss : Nat) : ℚ)) := by
  have hl : (timeField hh mm ss fr).frac = fr.getD [] := rfl
  have hv : decVal ((timeField hh mm ss fr).ip ++ fr.getD [])
      = (hh * 10000 + mm * 100 + ss) * 10 ^ (fr.getD []).length + decVal (fr.getD []) := by
    show decVal ((d2 hh ++ d2 mm ++ d2 ss) ++ fr.getD []) = _
    rw [decVal_append, decVal_hms hh mm ss h1 h2 h3]
  have hneg : (timeField hh mm ss fr).neg = false := rfl
  have hlt := decVal_lt (fr.getD []) hfr
  have hP : (0 : ℚ) < (10 : ℚ) ^ (fr.getD []).length := by positivity
  unfold Num.value
  simp only [hl, hv, hneg, Bool.false_eq_true, if_false]
  have hm : ((((hh * 10000 + mm * 100 + ss) * 10 ^ (fr.getD []).length
      + decVal (fr.getD []) : Nat) : ℚ)) / (10 : ℚ) ^ (fr.getD []).length
      = ((hh * 10000 + mm * 100 + ss : Nat) : ℚ)
        + (decVal (fr.getD []) : ℚ) / (10 : ℚ) ^ (fr.getD []).length := by
    push_cast
    field_simp
  rw [hm]
  have hr0 : (0 : ℚ) ≤ (decVal (fr.getD []) : ℚ) / (10 : ℚ) ^ (fr.getD []).length := by
    positivity
  have hr1 : (decVal (fr.getD []) : ℚ) / (10 : ℚ) ^ (fr.getD []).length ≤ 1 := by
    rw [div_le_one hP]
    have : ((decVal (fr.getD []) : Nat) : ℚ) < ((10 ^ (fr.getD []).length : Nat) : ℚ) := by
      exact_mod_cast hlt
    push_cast at this
    exact this.le
  have hb := f32round_bracket (hh * 10000 + mm * 100 + ss)
    (((hh * 10000 + mm * 100 + ss : Nat) : ℚ)
      + (decVal (fr.getD []) : ℚ) / (10 : ℚ) ^ (fr.getD []).length)
    (by norm_num; omega) (by linarith) (by linarith)
  refine ⟨hb.1, hb.2, ?_⟩
  intro hz
  rw [decVal_zeros _ hz]
  simp only [Nat.cast_zero, zero_div, add_zero]
  exact f32round_natCast _ (by norm_num; omega)

/-- Adding the eight hours to a time field with a fraction of a second and splitting the
result (gps.cpp 67-70): hour and minutes are those of the field, the second is the
field's or the next one. -/
theorem local_time_field (hh mm ss : Nat) (fr : Option (List Char)) (h1 : hh ≤ 23)
    (h2 : mm ≤ 59) (h3 : ss ≤ 59) (hfr : ∀ c ∈ fr.getD [], isdigit c = true) :
    let v := truncToInt (f32round ((timeField hh mm ss fr).value + 80000))
    v.tdiv 10000 = (hh : Int) + 8 ∧ (v.tmod 10000).tdiv 100 = mm ∧
    (v.tmod 100 = ss ∨ v.tmod 100 = (ss : Int) + 1) ∧
    ((∀ c ∈ fr.getD [], c = '0') → v.tmod 100 = ss) := by
  intro v
  obtain ⟨hlo, hhi, hwhole⟩ := timeField_value hh mm ss fr (by omega) (by omega) (by omega) hfr
  have e : (((hh * 10000 + mm * 100 + ss : Nat) : ℚ) + 80000)
      = (((hh + 8) * 10000 + mm * 100 + ss : Nat) : ℚ) := by push_cast; ring
  have hb := f32round_bracket ((hh + 8) * 10000 + mm * 100 + ss)
    ((timeField hh mm ss fr).value + 80000) (by norm_num; omega)
    (by rw [← e]; linarith) (by rw [← e]; linarith)
  have hv : v = (((hh + 8) * 10000 + mm * 100 + ss : Nat) : Int) ∨
      v = (((hh + 8) * 10000 + mm * 100 + ss : Nat) : Int) + 1 :=
    truncToInt_bracket _ _ (by norm_num; omega) hb.1 hb.2
  have hw : (∀ c ∈ fr.getD [], c = '0') →
      v = (((hh + 8) * 10000 + mm * 100 + ss : Nat) : Int) := by
    intro hz
    show truncToInt (f32round _) = _
    rw [hwhole hz, e, f32round_natCast _ (by norm_num; omega),
      truncToInt_natCast _ (by norm_num; omega)]
  have hpos : 0 ≤ v := by rcases hv with h | h <;> rw [h] <;> positivity
  rw [Int.tdiv_eq_ediv hpos (by norm_num), Int.tmod_eq_emod hpos (by norm_num),
    Int.tmod_eq_emod hpos (by norm_num), Int.tdiv_eq_ediv (by omega) (by norm_num)]
  refine ⟨?_, ?_, ?_, ?_⟩
  · rcases hv with h | h <;> rw [h] <;> omega
  · rcases hv with h | h <;> rw [h] <;> omega
  · rcases hv with h | h
    · left; rw [h]; omega
    · right; rw [h]; omega
  · intro hz
    rw [hw hz]; omega

/-! ### Single directives -/

theorem format_directives : parseFormat GGA_SENTENCE_FORMAT.toList =
    [Directive.skipc, Directive.skipc, Directive.lit 'G', Directive.lit 'G', Directive.lit 'A',
     Directive.lit ',', Directive.convf, Directive.lit ',', Directive.convf, Directive.lit ',',
     Directive.convc, Directive.lit ',', Directive.convf, Directive.lit ',', Directive.convc,
     Directive.lit ',', Directive.convd, Directive.lit ',', Directive.convd, Directive.lit ',',
     Directive.convf, Directive.lit ',', Directive.convf, Directive.lit ',', Directive.skipc,
     Directive.lit ',', Directive.convf, Directive.lit ',', Directive.skipc, Directive.lit ',',
     Directive.convf, Directive.lit ',', Directive.convd, Directive.lit '*',
     Directive.convlx] := by
  decide

theorem convStep_nospace (scan : List Char → Option (Val × List Char)) (c : Char)
    (r : List Char) (hc : isspace c = false) :
    convStep scan (c :: r) =
      match scan (c :: r) with
      | none => Step.matchFailure
      | some (v, rest) => Step.matched (some v) rest := by
  unfold convStep
  simp [List.dropWhile_cons, hc]

theorem Num.text_head (n : Num) (hn : n.WellFormed) (tl : List Char) :
    ∃ c r, n.text ++ tl = c :: r ∧ isspace c = false := by
  obtain ⟨d, ds, hip⟩ := List.exists_cons_of_ne_nil hn.1
  have hd : isdigit d = true := hn.2.1 d (by rw [hip]; exact List.mem_cons_self _ _)
  unfold Num.text
  cases n.neg with
  | false =>
    exact ⟨d, ds ++ (n.fracText ++ tl), by simp [hip], isdigit_not_space d hd⟩
  | true =>
    exact ⟨'-', n.ip ++ (n.fracText ++ tl), by simp, by decide⟩

theorem runDirective_convf (n : Num) (hn : n.WellFormed) (tl : List Char)
    (htl : stops floatCont tl) :
    runDirective Directive.convf (n.text ++ tl) = Step.matched (some (Val.flt n.value)) tl := by
  obtain ⟨c, r, he, hc⟩ := Num.text_head n hn tl
  have hs := scanFloat_text n hn tl htl
  simp only [runDirective]
  rw [he, convStep_nospace _ c r hc, ← he, hs]
  rfl

theorem runDirective_convd (ds tl : List Char) (hds : Sentence.digits ds)
    (htl : stops isdigit tl) :
    runDirective Directive.convd (ds ++ tl) =
      Step.matched (some (Val.int (int32 (decVal ds)))) tl := by
  obtain ⟨d, ds', hd⟩ := List.exists_cons_of_ne_nil hds.1
  have hdig : isdigit d = true := hds.2 d (by rw [hd]; exact List.mem_cons_self _ _)
  have hs := scanInt_digits ds tl hds.1 hds.2 htl
  simp only [runDirective]
  have he : ds ++ tl = d :: (ds' ++ tl) := by rw [hd]; rfl
  rw [he, convStep_nospace _ d _ (isdigit_not_space d hdig), ← he, hs]
  rfl

theorem isxdigit_not_space (c : Char) (h : isxdigit c = true) : isspace c = false := by
  simp only [isxdigit, isdigit, Bool.or_eq_true, decide_eq_true_eq] at h
  simp only [isspace, Bool.or_eq_false_iff, decide_eq_false_iff_not]
  have h1 : (48 : Nat) ≤ c.toNat := by
    rcases h with (h | h) | h
    · have := h.1; rw [Char.le_def] at this; exact this
    · have := h.1; rw [Char.le_def] at this; exact le_trans (by decide) this
    · have := h.1; rw [Char.le_def] at this; exact le_trans (by decide) this
  refine ⟨⟨⟨⟨⟨?_, ?_⟩, ?_⟩, ?_⟩, ?_⟩, ?_⟩ <;>
    (intro e; subst e; revert h1; decide)

theorem isxdigit_not_mark (c : Char) (h : isxdigit c = true) :
    c ≠ 'x' ∧ c ≠ 'X' ∧ c ≠ '-' ∧ c ≠ '+' := by
  refine ⟨?_, ?_, ?_, ?_⟩ <;> (intro e; subst e; revert h; decide)

theorem scanHex_digits (ds : List Char) (hds : Sentence.xdigits ds) :
    scanHex ds = some (hexVal ds % 2 ^ 32, []) := by
  obtain ⟨d, ds', hd⟩ := List.exists_cons_of_ne_nil hds.1
  have hx : ∀ c ∈ ds, isxdigit c = true := hds.2
  have hdx : isxdigit d = true := hx d (by rw [hd]; exact List.mem_cons_self _ _)
  have hsign : scanSign ds = (false, ds) := by
    rw [hd]; unfold scanSign
    split
    · rename_i heq; injection heq with h1 _; exact absurd h1 (isxdigit_not_mark d hdx).2.2.1
    · rename_i heq; injection heq with h1 _; exact absurd h1 (isxdigit_not_mark d hdx).2.2.2
    · rfl
  have hmark : scanHexMark ds = ds := by
    unfold scanHexMark
    split
    · rename_i r
      have := hx 'x' (by simp)
      exact absurd this (by decide)
    · rename_i r
      have := hx 'X' (by simp)
      exact absurd this (by decide)
    · rfl
  have htake : ds.takeWhile isxdigit = ds := by
    have := takeWhile_run isxdigit ds [] hx (by intro c hc; simp at hc)
    simpa using this
  have hdrop : ds.dropWhile isxdigit = [] := by
    have := dropWhile_run isxdigit ds [] hx (by intro c hc; simp at hc)
    simpa using this
  unfold scanHex
  simp only [hsign, hmark, htake, hdrop]
  have : ds.isEmpty = false := by rw [hd]; rfl
  simp [this]

theorem runDirective_convlx (ds : List Char) (hds : Sentence.xdigits ds) :
    runDirective Directive.convlx ds = Step.matched (some (Val.ulong (hexVal ds % 2 ^ 32))) [] := by
  obtain ⟨d, ds', hd⟩ := List.exists_cons_of_ne_nil hds.1
  have hdx : isxdigit d = true := hds.2 d (by rw [hd]; exact List.mem_cons_self _ _)
  have hs := scanHex_digits ds hds
  simp only [runDirective]
  rw [hd, convStep_nospace _ d _ (isxdigit_not_space d hdx), ← hd, hs]
  rfl

theorem runDirective_convf_comma (r : List Char) :
    runDirective Directive.convf (',' :: r) = Step.matchFailure := by
  simp only [runDirective]
  rw [convStep_nospace _ ',' r (by decide)]
  have : scanFloat (',' :: r) = none := by
    simp [scanFloat, scanSign, scanDecimal, scanFraction, List.takeWhile_cons, List.dropWhile_cons,
      isdigit]
  rw [this]; rfl

/-! ### Runs of directives -/

theorem scan_lit (c : Char) (ds : List Directive) (r : List Char) (conv : Bool) :
    scanDirectives (Directive.lit c :: ds) (c :: r) conv = scanDirectives ds r conv := by
  simp [scanDirectives, runDirective, Directive.isConversion]

theorem scan_skipc (x : Char) (ds : List Directive) (r : List Char) (conv : Bool) :
    scanDirectives (Directive.skipc :: ds) (x :: r) conv = scanDirectives ds r true := by
  simp [scanDirectives, runDirective, Directive.isConversion]

theorem scan_convc (x : Char) (ds : List Directive) (r : List Char) (conv : Bool) :
    scanDirectives (Directive.convc :: ds) (x :: r) conv =
      ((scanDirectives ds r true).1, Val.chr x :: (scanDirectives ds r true).2) := by
  simp [scanDirectives, runDirective]

theorem scan_assign (d : Directive) (ds : List Directive) (inp rest : List Char) (conv : Bool)
    (v : Val) (h : runDirective d inp = Step.matched (some v) rest) :
    scanDirectives (d :: ds) inp conv =
      ((scanDirectives ds rest true).1, v :: (scanDirectives ds rest true).2) := by
  simp [scanDirectives, h]

theorem scan_matchFailure (d : Directive) (ds : List Directive) (inp : List Char) (conv : Bool)
    (h : runDirective d inp = Step.matchFailure) :
    scanDirectives (d :: ds) inp conv = (false, []) := by
  simp [scanDirectives, h]

/-- Once a conversion has completed the scan no longer ends in `EOF`. -/
theorem scan_flag_true (ds : List Directive) : ∀ (inp : List Char),
    (scanDirectives ds inp true).1 = false := by
  induction ds with
  | nil => intro inp; rfl
  | cons d ds ih =>
    intro inp
    unfold scanDirectives
    split
    · rfl
    · rfl
    · simpa using ih _
    · simpa using ih _

theorem stops_comma (p : Char → Bool) (hp : p ',' = false) (r : List Char) :
    stops p (',' :: r) := by
  intro c hc
  simp at hc
  subst hc
  exact hp

theorem scan_sentence (s : Sentence) (hs : s.WellFormed) :
    scanDirectives (parseFormat GGA_SENTENCE_FORMAT.toList) s.body false = (false, s.items) := by
  have hF : ∀ r, stops floatCont (',' :: r) := stops_comma _ (by decide)
  have hD : ∀ r, stops isdigit (',' :: r) := stops_comma _ (by decide)
  have htime := timeField_wellFormed s.hh s.mm s.ss s.sfrac (by have := hs.hh; omega)
    (by have := hs.mm; omega) (by have := hs.ss; omega) hs.sfrac
  rw [format_directives]
  unfold Sentence.body
  rw [scan_skipc, scan_skipc, scan_lit, scan_lit, scan_lit, scan_lit,
    scan_assign _ _ _ _ _ _ (runDirective_convf _ htime _ (hF _)), scan_lit,
    scan_assign _ _ _ _ _ _ (runDirective_convf _ hs.lat _ (hF _)), scan_lit,
    scan_convc, scan_lit,
    scan_assign _ _ _ _ _ _ (runDirective_convf _ hs.lon _ (hF _)), scan_lit,
    scan_convc, scan_lit,
    scan_assign _ _ _ _ _ _ (runDirective_convd _ _ hs.fixq (hD _)), scan_lit,
    scan_assign _ _ _ _ _ _ (runDirective_convd _ _ hs.nsats (hD _)), scan_lit,
    scan_assign _ _ _ _ _ _ (runDirective_convf _ hs.hdop _ (hF _)), scan_lit,
    scan_assign _ _ _ _ _ _ (runDirective_convf _ hs.alt _ (hF _)), scan_lit,
    scan_skipc, scan_lit,
    scan_assign _ _ _ _ _ _ (runDirective_convf _ hs.geoid _ (hF _)), scan_lit,
    scan_skipc, scan_lit]
  unfold Sentence.items Sentence.ageText
  cases hage : s.age with
  | none =>
    simp only [List.nil_append]
    rw [scan_matchFailure _ _ _ _ (runDirective_convf_comma _)]
    simp
  | some a =>
    have hstar : stops isdigit ('*' :: s.checksum) := by
      intro c hc; simp at hc; subst hc; decide
    simp only []
    rw [scan_assign _ _ _ _ _ _ (runDirective_convf _ (hs.age a hage) _ (hF _)), scan_lit,
      scan_assign _ _ _ _ _ _ (runDirective_convd _ _
        ⟨hs.station.1 (by rw [hage]; exact Option.some_ne_none a), hs.station.2⟩ hstar),
      scan_lit,
      scan_assign _ _ _ _ _ _ (runDirective_convlx _ hs.checksum)]
    simp [scanDirectives]

theorem sscanf_sentence (s : Sentence) (hs : s.WellFormed) :
    sscanf s.body GGA_SENTENCE_FORMAT = ((s.items.length : Int), s.items) := by
  unfold sscanf
  rw [scan_sentence s hs]
  simp

/-! ### The characters of a sentence -/

theorem storeArgs_items (s : Sentence) (t : Targets) :
    let r := storeArgs callArgs s.items t
    r.time_raw = (timeField s.hh s.mm s.ss s.sfrac).value ∧
    r.fix_raw = int32 (decVal s.fixq) ∧
    r.g.latitude = s.lat.value ∧ r.g.ns = s.ns ∧ r.g.longitude = s.lon.value ∧ r.g.ew = s.ew ∧
    r.g.nsats = int32 (decVal s.nsats) ∧ r.g.hdop = s.hdop.value ∧ r.g.alt = s.alt.value ∧
    r.g.geoid = s.geoid.value ∧
    (∀ a, s.age = some a → r.g.age_of_diff = a.value ∧
      r.g.diff_ref_station = int32 (decVal s.station) ∧
      r.g.checksum = hexVal s.checksum % 2 ^ 32) ∧
    (s.age = none → r.g.age_of_diff = t.g.age_of_diff ∧
      r.g.diff_ref_station = t.g.diff_ref_station ∧ r.g.checksum = t.g.checksum) ∧
    r.g.hour = t.g.hour ∧ r.g.minutes = t.g.minutes ∧ r.g.seconds = t.g.seconds ∧
    r.g.fix = t.g.fix ∧ r.g._state = t.g._state ∧ r.g._data_read = t.g._data_read ∧
    r.g._sentence_buffer = t.g._sentence_buffer ∧ r.g._rxbuf = t.g._rxbuf ∧
    r.g.serial_rx = t.g.serial_rx ∧ r.g._rx_irq_enabled = t.g._rx_irq_enabled ∧
    r.g._rx_enabled = t.g._rx_enabled := by
  obtain ⟨t1, t2, hh, mm, ss, sfrac, lat, ns, lon, ew, fixq, nsats, hdop, alt, au, geoid, gu,
    age, st, ck⟩ := s
  cases age with
  | none =>
    simp only [Sentence.items, List.append_nil, storeArgs, callArgs, storeArg]
    simp
  | some a =>
    simp only [Sentence.items, List.cons_append, List.nil_append, storeArgs, callArgs, storeArg]
    simp

theorem items_length (s : Sentence) : (1 : Int) ≤ (s.items.length : Int) := by
  cases hage : s.age <;> simp [Sentence.items, hage]

/-- Decoding a well-formed sentence whose fix code, as stored in an `int`, is not zero. -/
theorem decode_fix (s : Sentence) (hs : s.WellFormed) (hfix : int32 (decVal s.fixq) ≠ 0)
    (g1 : State) (hbuf : cstr g1._sentence_buffer = s.body) (t0 : ℚ) (f0 : Int) :
    (decode t0 f0 g1).1 = true ∧ (decode t0 f0 g1).2.hour = (s.hh : Int) + 8 ∧
    (decode t0 f0 g1).2.minutes = s.mm ∧
    (((decode t0 f0 g1).2.seconds = s.ss ∨ (decode t0 f0 g1).2.seconds = (s.ss : Int) + 1) ∧
      (s.WholeSecond → (decode t0 f0 g1).2.seconds = s.ss)) ∧
    (decode t0 f0 g1).2.latitude = s.lat.value ∧ (decode t0 f0 g1).2.ns = s.ns ∧
    (decode t0 f0 g1).2.longitude = s.lon.value ∧ (decode t0 f0 g1).2.ew = s.ew ∧
    (decode t0 f0 g1).2.fix = int32 (decVal s.fixq) ∧
    (decode t0 f0 g1).2.nsats = int32 (decVal s.nsats) ∧
    (decode t0 f0 g1).2.hdop = s.hdop.value ∧ (decode t0 f0 g1).2.alt = s.alt.value ∧
    (decode t0 f0 g1).2.geoid = s.geoid.value ∧
    (∀ a, s.age = some a → (decode t0 f0 g1).2.age_of_diff = a.value ∧
      (decode t0 f0 g1).2.diff_ref_station = int32 (decVal s.station) ∧
      (decode t0 f0 g1).2.checksum = hexVal s.checksum % 2 ^ 32) ∧
    (s.age = none → (decode t0 f0 g1).2.age_of_diff = g1.age_of_diff ∧
      (decode t0 f0 g1).2.diff_ref_station = g1.diff_ref_station ∧
      (decode t0 f0 g1).2.checksum = g1.checksum) ∧
    (decode t0 f0 g1).2._state = InputState.LOOK_FOR_DOLLA ∧
    (decode t0 f0 g1).2._data_read = g1._data_read := by
  obtain ⟨h1, h2, h3, h4, h5, h6, h7, h8, h9, h10, h11, h12, h13, h14, h15, h16, h17, h18, _⟩ :=
    storeArgs_items s { time_raw := t0, fix_raw := f0, g := g1 }
  obtain ⟨hH, hM, hS, hW⟩ := local_time_field s.hh s.mm s.ss s.sfrac hs.hh hs.mm hs.ss hs.sfrac
  have hne : ¬ (int32 (decVal s.fixq : Int) = FIX_NOT_AVAILABLE) := by
    simp only [FIX_NOT_AVAILABLE]; exact hfix
  unfold decode
  simp only [hbuf, sscanf_sentence s hs, items_length s, if_true]
  generalize storeArgs callArgs s.items { time_raw := t0, fix_raw := f0, g := g1 } = t at *
  rw [← h1] at hH hM hS hW
  generalize truncToInt (f32round (t.time_raw + 80000)) = v at *
  simp only [h2, hne, if_false]
  exact ⟨trivial, hH, hM, ⟨hS, hW⟩, h3, h4, h5, h6, trivial, h7, h8, h9, h10, h11, h12, trivial,
    h18⟩

/-- Decoding a well-formed sentence whose fix code, as stored in an `int`, is zero. -/
theorem decode_nofix (s : Sentence) (hs : s.WellFormed) (hfix : int32 (decVal s.fixq) = 0)
    (g1 : State) (hbuf : cstr g1._sentence_buffer = s.body) (t0 : ℚ) (f0 : Int) :
    (decode t0 f0 g1).1 = false ∧ (decode t0 f0 g1).2.latitude = 0 ∧
    (decode t0 f0 g1).2.longitude = 0 ∧ (decode t0 f0 g1).2.nsats = 0 ∧
    (decode t0 f0 g1).2.hdop = 0 ∧ (decode t0 f0 g1).2.alt = 0 ∧
    (decode t0 f0 g1).2.geoid = 0 ∧ (decode t0 f0 g1).2.age_of_diff = 0 ∧
    (decode t0 f0 g1).2.diff_ref_station = 0 ∧
    (decode t0 f0 g1).2.fix = FIX_NOT_AVAILABLE ∧ (decode t0 f0 g1).2.ns = s.ns ∧
    (decode t0 f0 g1).2.ew = s.ew ∧ (decode t0 f0 g1).2.hour = g1.hour ∧
    (decode t0 f0 g1).2.minutes = g1.minutes ∧ (decode t0 f0 g1).2.seconds = g1.seconds ∧
    (decode t0 f0 g1).2._state = InputState.LOOK_FOR_DOLLA := by
  obtain ⟨h1, h2, h3, h4, h5, h6, h7, h8, h9, h10, h11, h12, h13, h14, h15, h16, h17, h18, _⟩ :=
    storeArgs_items s { time_raw := t0, fix_raw := f0, g := g1 }
  have he : (int32 (decVal s.fixq : Int) = FIX_NOT_AVAILABLE) := by
    simp only [FIX_NOT_AVAILABLE]; exact hfix
  unfold decode
  simp only [hbuf, sscanf_sentence s hs, items_length s, if_true]
  generalize storeArgs callArgs s.items { time_raw := t0, fix_raw := f0, g := g1 } = t at *
  simp only [h2, he, if_true]
  exact ⟨trivial, trivial, trivial, trivial, trivial, trivial, trivial, trivial, trivial, trivial,
    h4, h6, h13, h14, h15, trivial⟩

/-! ### Round trip -/

theorem update_of_read (t0 : ℚ) (f0 : Int) (g : State)
    (h : (readSentence g)._state = InputState.MESSAGE_READ) :
    update t0 f0 g = decode t0 f0 (readSentence g) := by
  unfold update
  simp only [h]

theorem exampleSentence_wellFormed : exampleSentence.WellFormed where
  talker1 := ⟨by decide, by decide⟩
  talker2 := ⟨by decide, by decide⟩
  hh := by decide
  mm := by decide
  ss := by decide
  sfrac := by decide
  lat := ⟨by decide, by decide, by decide⟩
  ns := ⟨by decide, by decide⟩
  lon := ⟨by decide, by decide, by decide⟩
  ew := ⟨by decide, by decide⟩
  fixq := ⟨by decide, by decide⟩
  nsats := ⟨by decide, by decide⟩
  hdop := ⟨by decide, by decide, by decide⟩
  alt := ⟨by decide, by decide, by decide⟩
  altUnit := ⟨by decide, by decide⟩
  geoid := ⟨by decide, by decide, by decide⟩
  geoidUnit := ⟨by decide, by decide⟩
  age := by intro a h; cases h
  station := ⟨fun _ => by decide, by decide⟩
  checksum := ⟨by decide, by decide⟩

theorem readLoop_published (xs : List Char) : ∀ (g : State) (p : Nat),
    published (readLoop g p xs).1 = published g := by
  induction xs with
  | nil => intro g p; rfl
  | cons c cs ih =>
    intro g p
    unfold readLoop
    split
    · split
      · rw [ih]; rfl
      · rw [ih]
    · split
      · rfl
      · rw [ih]; rfl
    · rw [ih]

theorem rx_irq_frame (g : State) :
    published (rx_irq g) = published g ∧ (rx_irq g)._state = g._state ∧
    (rx_irq g)._sentence_buffer = g._sentence_buffer ∧ (rx_irq g)._data_read = g._data_read := by
  unfold rx_irq disable_rx_irq
  dsimp only
  split <;> exact ⟨rfl, rfl, rfl, rfl⟩

theorem rearm_frame (g : State) :
    published (rearm g) = published g ∧ (rearm g)._state = g._state ∧
    (rearm g)._sentence_buffer = g._sentence_buffer ∧ (rearm g)._data_read = g._data_read := by
  obtain ⟨h1, h2, h3, h4⟩ := rx_irq_frame g
  unfold rearm enable_rx_irq
  dsimp only
  split
  · split
    · exact ⟨h1, h2, h3, h4⟩
    · exact ⟨h1, h2, h3, h4⟩
  · exact ⟨rfl, rfl, rfl, rfl⟩

theorem readSentence_published (g : State) : published (readSentence g) = published g := by
  unfold readSentence
  split
  · rfl
  · dsimp only
    split
    · exact readLoop_published _ _ _
    · rw [(rearm_frame _).1]; exact readLoop_published _ _ _

/-- In `MESSAGE_READ` and `MESSAGE_OVERFLOW` the loop only discards the queued bytes. -/
theorem readLoop_idle (xs : List Char) (g : State) (p : Nat)
    (h : g._state = InputState.MESSAGE_READ ∨ g._state = InputState.MESSAGE_OVERFLOW) :
    readLoop g p xs = ({ g with _rxbuf := { g._rxbuf with data := [] } }, false) := by
  induction xs with
  | nil => rfl
  | cons c cs ih =>
    unfold readLoop
    split
    · rename_i h1; rw [h1] at h; rcases h with h | h <;> cases h
    · rename_i h1; rw [h1] at h; rcases h with h | h <;> cases h
    · exact ih

/-- A loop that leaves through the `return` has stored the terminator and is in
`MESSAGE_READ`. -/
theorem readLoop_returned (xs : List Char) : ∀ (g : State) (p : Nat),
    (readLoop g p xs).2 = true → (readLoop g p xs).1._state = InputState.MESSAGE_READ := by
  induction xs with
  | nil => intro g p h; simp [readLoop] at h
  | cons c cs ih =>
    intro g p
    unfold readLoop
    split
    · split
      · exact ih _ _
      · exact ih _ _
    · split
      · intro _; rfl
      · exact ih _ _
    · exact ih _ _

/-- A loop that drains the queue from `LOOK_FOR_DOLLA` or `READING_MESSAGE` ends in one of
these two states. -/
theorem readLoop_drained (xs : List Char) : ∀ (g : State) (p : Nat),
    (g._state = InputState.LOOK_FOR_DOLLA ∨ g._state = InputState.READING_MESSAGE) →
    (readLoop g p xs).2 = false →
    ((readLoop g p xs).1._state = InputState.LOOK_FOR_DOLLA ∨
      (readLoop g p xs).1._state = InputState.READING_MESSAGE) := by
  induction xs with
  | nil => intro g p h _; exact h
  | cons c cs ih =>
    intro g p h
    unfold readLoop
    split
    · split
      · exact ih _ _ (Or.inr rfl)
      · exact ih _ _ h
    · rename_i hR
      split
      · intro hf; cases hf
      · exact ih _ _ (Or.inr hR)
    · rename_i h1 h2
      rcases h with h | h
      · exact absurd h h1
      · exact absurd h h2

/-! ### What the decoder leaves alone -/

theorem storeArg_frame (a : Arg) (v : Val) (t : Targets) :
    (storeArg a v t).g._state = t.g._state ∧
    (storeArg a v t).g._sentence_buffer = t.g._sentence_buffer ∧
    (storeArg a v t).g._data_read = t.g._data_read ∧
    (storeArg a v t).g._rxbuf = t.g._rxbuf ∧
    (storeArg a v t).g.serial_rx = t.g.serial_rx ∧
    (storeArg a v t).g._rx_irq_enabled = t.g._rx_irq_enabled ∧
    (storeArg a v t).g._rx_enabled = t.g._rx_enabled := by
  cases a <;> cases v <;> exact ⟨rfl, rfl, rfl, rfl, rfl, rfl, rfl⟩

theorem storeArgs_frame (as : List Arg) : ∀ (vs : List Val) (t : Targets),
    (storeArgs as vs t).g._state = t.g._state ∧
    (storeArgs as vs t).g._sentence_buffer = t.g._sentence_buffer ∧
    (storeArgs as vs t).g._data_read = t.g._data_read ∧
    (storeArgs as vs t).g._rxbuf = t.g._rxbuf ∧
    (storeArgs as vs t).g.serial_rx = t.g.serial_rx ∧
    (storeArgs as vs t).g._rx_irq_enabled = t.g._rx_irq_enabled ∧
    (storeArgs as vs t).g._rx_enabled = t.g._rx_enabled := by
  induction as with
  | nil => intro vs t; exact ⟨rfl, rfl, rfl, rfl, rfl, rfl, rfl⟩
  | cons a as ih =>
    intro vs t
    cases vs with
    | nil => exact ⟨rfl, rfl, rfl, rfl, rfl, rfl, rfl⟩
    | cons v vs =>
      obtain ⟨h1, h2, h3, h4, h5, h6, h7⟩ := ih vs (storeArg a v t)
      obtain ⟨k1, k2, k3, k4, k5, k6, k7⟩ := storeArg_frame a v t
      simp only [storeArgs]
      exact ⟨h1.trans k1, h2.trans k2, h3.trans k3, h4.trans k4, h5.trans k5, h6.trans k6,
        h7.trans k7⟩

theorem storeArgs_nil (as : List Arg) (t : Targets) : storeArgs as [] t = t := by
  cases as <;> rfl

/-- An `EOF` result assigns nothing. -/
theorem scan_flag_vals (ds : List Directive) : ∀ (inp : List Char) (conv : Bool),
    (scanDirectives ds inp conv).1 = true → (scanDirectives ds inp conv).2 = [] := by
  induction ds with
  | nil => intro inp conv h; rfl
  | cons d ds ih =>
    intro inp conv
    unfold scanDirectives
    split
    · intro _; rfl
    · intro _; rfl
    · exact ih _ _
    · intro h
      have := scan_flag_true ds ‹List Char›
      simp only [this] at h
      cases h

/-- A return value below 1 means that no item was assigned. -/
theorem sscanf_rejected (s : List Char) (f : String) (h : (sscanf s f).1 < 1) :
    (sscanf s f).2 = [] := by
  unfold sscanf at h ⊢
  dsimp only at h ⊢
  by_cases hf : (scanDirectives (parseFormat f.toList) s false).1 = true
  · exact scan_flag_vals _ _ _ hf
  · rw [if_neg hf] at h
    have : (scanDirectives (parseFormat f.toList) s false).2.length = 0 := by omega
    exact List.length_eq_zero.mp this

/-- The return value is the number of assigned items unless it is `EOF`. -/
theorem sscanf_accepted (s : List Char) (f : String) (h : 1 ≤ (sscanf s f).1) :
    (sscanf s f).1 = ((sscanf s f).2.length : Int) := by
  unfold sscanf at h ⊢
  dsimp only at h ⊢
  by_cases hf : (scanDirectives (parseFormat f.toList) s false).1 = true
  · rw [if_pos hf] at h
    simp only [EOF] at h
    omega
  · rw [if_neg hf]

/-- A rejected sentence changes nothing. -/
theorem decode_rejected (t0 : ℚ) (f0 : Int) (g1 : State)
    (h : (sscanf (cstr g1._sentence_buffer) GGA_SENTENCE_FORMAT).1 < 1) :
    decode t0 f0 g1 = (false, g1) := by
  have hv := sscanf_rejected _ _ h
  have hn : ¬ (1 ≤ (sscanf (cstr g1._sentence_buffer) GGA_SENTENCE_FORMAT).1) := by omega
  unfold decode
  simp only [hv, hn, if_false, storeArgs_nil]

/-- Result, framer state and buffer after decoding. -/
theorem decode_frame (t0 : ℚ) (f0 : Int) (g1 : State) :
    ((decode t0 f0 g1).1 = true ↔
      (1 ≤ (sscanf (cstr g1._sentence_buffer) GGA_SENTENCE_FORMAT).1 ∧
        (decode t0 f0 g1).2.fix ≠ FIX_NOT_AVAILABLE)) ∧
    (decode t0 f0 g1).2._state =
      (if 1 ≤ (sscanf (cstr g1._sentence_buffer) GGA_SENTENCE_FORMAT).1
        then InputState.LOOK_FOR_DOLLA else g1._state) ∧
    (decode t0 f0 g1).2._sentence_buffer = g1._sentence_buffer ∧
    (decode t0 f0 g1).2._data_read = g1._data_read := by
  by_cases hn : 1 ≤ (sscanf (cstr g1._sentence_buffer) GGA_SENTENCE_FORMAT).1
  · obtain ⟨k1, k2, k3, _⟩ := storeArgs_frame callArgs
      (sscanf (cstr g1._sentence_buffer) GGA_SENTENCE_FORMAT).2
      { time_raw := t0, fix_raw := f0, g := g1 }
    unfold decode
    simp only [hn, if_true]
    generalize storeArgs callArgs (sscanf (cstr g1._sentence_buffer) GGA_SENTENCE_FORMAT).2
      { time_raw := t0, fix_raw := f0, g := g1 } = t at *
    generalize truncToInt (f32round (t.time_raw + 80000)) = v
    by_cases hf : t.fix_raw = FIX_NOT_AVAILABLE
    · simp only [hf, if_true]
      exact ⟨by simp, trivial, k2, k3⟩
    · simp only [hf, if_false]
      exact ⟨by simp [hf], trivial, k2, k3⟩
  · have hlt : (sscanf (cstr g1._sentence_buffer) GGA_SENTENCE_FORMAT).1 < 1 := by omega
    rw [decode_rejected t0 f0 g1 hlt]
    simp [hn]

/-! ### When `update()` reports a fix -/

theorem update_establishes_inv (t0 : ℚ) (f0 : Int) (g : State) :
    FramerInv (update t0 f0 g).2 := by
  unfold update
  dsimp only
  split
  · rename_i h; exact ⟨by rw [h]; decide, fun h' => by rw [h] at h'; cases h'⟩
  · rename_i h; exact ⟨by rw [h]; decide, fun h' => by rw [h] at h'; cases h'⟩
  · exact ⟨fun h' => (by cases h'), fun h' => (by cases h')⟩
  · rename_i h
    obtain ⟨_, k2, k3, _⟩ := decode_frame t0 f0 (readSentence g)
    unfold FramerInv
    rw [k2, k3]
    by_cases hn : 1 ≤ (sscanf (cstr (readSentence g)._sentence_buffer) GGA_SENTENCE_FORMAT).1
    · simp only [hn, if_true]
      exact ⟨by decide, fun h' => by cases h'⟩
    · simp only [hn, if_false, h]
      exact ⟨by decide, fun _ => by omega⟩

theorem reachable_inv (g : State) (hg : Reachable g) : FramerInv g := by
  induction hg with
  | construct mem cap h => exact ⟨fun h' => (by cases h'), fun h' => (by cases h')⟩
  | arrive g bytes _ ih => exact ih
  | irq g _ _ ih =>
    obtain ⟨_, h2, h3, _⟩ := rx_irq_frame g
    unfold FramerInv
    rw [h2, h3]
    exact ih
  | update g t0 f0 _ _ => exact update_establishes_inv t0 f0 g

theorem readSentence_completes (g : State) (h : completes g = true) :
    (readSentence g)._state = InputState.MESSAGE_READ := by
  unfold completes at h
  simp only [Bool.and_eq_true, Bool.not_eq_true', decide_eq_false_iff_not] at h
  unfold readSentence
  simp only [h.1, if_false, h.2, if_true]
  exact readLoop_returned _ _ _ h.2

/-- A call that completes no sentence leaves the framer where `update` returns `false`,
or idles in `MESSAGE_READ` over the unchanged buffer. -/
theorem readSentence_not_completes (g : State) (h : completes g = false) :
    (readSentence g)._state = InputState.LOOK_FOR_DOLLA ∨
    (readSentence g)._state = InputState.READING_MESSAGE ∨
    (readSentence g)._state = InputState.MESSAGE_OVERFLOW ∨
    (g._state = InputState.MESSAGE_READ ∧
      (readSentence g)._state = InputState.MESSAGE_READ ∧
      (readSentence g)._sentence_buffer = g._sentence_buffer) := by
  unfold completes at h
  unfold readSentence
  by_cases h84 : g._data_read = MAX_SENTENCE_SIZE
  · rw [if_pos h84]
    exact Or.inr (Or.inr (Or.inl rfl))
  · simp only [h84, decide_False, Bool.not_false, Bool.true_and] at h
    simp only [h84, if_false, h, Bool.false_eq_true]
    obtain ⟨_, r2, r3, _⟩ := rearm_frame (readLoop g g._data_read g._rxbuf.data).1
    rw [r2, r3]
    cases hs : g._state with
    | LOOK_FOR_DOLLA =>
      rcases readLoop_drained _ g _ (Or.inl hs) h with h' | h'
      · exact Or.inl h'
      · exact Or.inr (Or.inl h')
    | READING_MESSAGE =>
      rcases readLoop_drained _ g _ (Or.inr hs) h with h' | h'
      · exact Or.inl h'
      · exact Or.inr (Or.inl h')
    | MESSAGE_READ =>
      rw [readLoop_idle _ g _ (Or.inl hs)]
      exact Or.inr (Or.inr (Or.inr ⟨rfl, hs, rfl⟩))
    | MESSAGE_OVERFLOW =>
      rw [readLoop_idle _ g _ (Or.inr hs)]
      exact Or.inr (Or.inr (Or.inl hs))

theorem update_false_of_state (t0 : ℚ) (f0 : Int) (g : State)
    (h : (readSentence g)._state = InputState.LOOK_FOR_DOLLA ∨
      (readSentence g)._state = InputState.READING_MESSAGE ∨
      (readSentence g)._state = InputState.MESSAGE_OVERFLOW) :
    (update t0 f0 g).1 = false := by
  unfold update
  rcases h with h | h | h <;> simp only [h]

/-- What `update()` reports in terms of the working buffer.  In every reachable state it
returns `true` exactly when the framing step of this very call completes a sentence (it
consumes a carriage return while in `READING_MESSAGE`), `sscanf` accepts the working
buffer (return value at least 1) and the fix type it leaves is not `FIX_NOT_AVAILABLE`; a
call that completes no sentence returns `false`, also when it is entered with the framer
still in `MESSAGE_READ`.  The working buffer need not hold the completed sentence alone:
the write cursor is not reset after a decode. -/
theorem update_true_iff (g : State) (hg : Reachable g) (t0 : ℚ) (f0 : Int) :
    ((update t0 f0 g).1 = true ↔
      (completes g = true ∧
        1 ≤ (sscanf (cstr (readSentence g)._sentence_buffer) GGA_SENTENCE_FORMAT).1 ∧
        (update t0 f0 g).2.fix ≠ FIX_NOT_AVAILABLE)) ∧
    (completes g = false → (update t0 f0 g).1 = false) := by
  have hinv := reachable_inv g hg
  have hfalse : completes g = false → (update t0 f0 g).1 = false := by
    intro hc
    rcases readSentence_not_completes g hc with h | h | h | ⟨h1, h2, h3⟩
    · exact update_false_of_state t0 f0 g (Or.inl h)
    · exact update_false_of_state t0 f0 g (Or.inr (Or.inl h))
    · exact update_false_of_state t0 f0 g (Or.inr (Or.inr h))
    · rw [update_of_read t0 f0 g h2, decode_rejected t0 f0 _ (by rw [h3]; exact hinv.2 h1)]
  refine ⟨?_, hfalse⟩
  cases hc : completes g with
  | false => simp [hfalse hc]
  | true =>
    rw [update_of_read t0 f0 g (readSentence_completes g hc)]
    simpa using (decode_frame t0 f0 (readSentence g)).1

/-! ### The local time of a decoded sentence -/

theorem storeArg_time_raw (a : Arg) (v : Val) (t : Targets) (h : a ≠ Arg.time_raw) :
    (storeArg a v t).time_raw = t.time_raw := by
  cases a <;> cases v <;> first | rfl | exact absurd rfl h

theorem storeArgs_time_raw (as : List Arg) : ∀ (vs : List Val) (t : Targets),
    Arg.time_raw ∉ as → (storeArgs as vs t).time_raw = t.time_raw := by
  induction as with
  | nil => intro vs t _; rfl
  | cons a as ih =>
    intro vs t h
    cases vs with
    | nil => rfl
    | cons v vs =>
      simp only [storeArgs]
      rw [ih vs _ (fun hm => h (List.mem_cons_of_mem _ hm)),
        storeArg_time_raw a v t (fun e => h (by rw [e]; exact List.mem_cons_self _ _))]

/-- The first assigned item is the time. -/
theorem storeArgs_callArgs_time (x : ℚ) (vs : List Val) (t : Targets) :
    (storeArgs callArgs (Val.flt x :: vs) t).time_raw = x := by
  unfold callArgs
  simp only [storeArgs]
  rw [storeArgs_time_raw _ _ _ (by decide)]
  rfl

/-- Scanning a sentence that starts with a whole-second time. -/
theorem sscanf_time (t1 t2 : Char) (hh mm ss : Nat) (h1 : hh < 100) (h2 : mm < 100)
    (h3 : ss < 100) (tl : List Char) (htl : stops floatCont tl) :
    ∃ vs, sscanf (t1 :: t2 :: 'G' :: 'G' :: 'A' :: ',' :: ((timeNum hh mm ss).text ++ tl))
        GGA_SENTENCE_FORMAT
      = (((Val.flt ((hh * 10000 + mm * 100 + ss : Nat) : ℚ) :: vs).length : Int),
          Val.flt ((hh * 10000 + mm * 100 + ss : Nat) : ℚ) :: vs) := by
  unfold sscanf
  rw [format_directives, scan_skipc, scan_skipc, scan_lit, scan_lit, scan_lit, scan_lit,
    scan_assign _ _ _ _ _ _ (runDirective_convf _ (timeNum_wellFormed hh mm ss h1 h2 h3) _ htl),
    timeNum_value hh mm ss h1 h2 h3]
  dsimp only
  rw [scan_flag_true]
  exact ⟨_, rfl⟩

/-- The time that a successful `update()` publishes for a whole-second time field. -/
theorem update_time_fields (hh mm ss : Nat) (h1 : hh ≤ 23) (h2 : mm ≤ 59) (h3 : ss ≤ 59)
    (t1 t2 : Char) (tl : List Char) (htl : stops floatCont tl)
    (g : State) (t0 : ℚ) (f0 : Int)
    (hread : (readSentence g)._state = InputState.MESSAGE_READ)
    (hbuf : cstr (readSentence g)._sentence_buffer =
      t1 :: t2 :: 'G' :: 'G' :: 'A' :: ',' :: ((timeNum hh mm ss).text ++ tl))
    (htrue : (update t0 f0 g).1 = true) :
    (update t0 f0 g).2.hour = (hh : Int) + 8 ∧ (update t0 f0 g).2.minutes = mm ∧
    (update t0 f0 g).2.seconds = ss := by
  obtain ⟨vs, hscan⟩ := sscanf_time t1 t2 hh mm ss (by omega) (by omega) (by omega) tl htl
  obtain ⟨hH, hM, hS⟩ := local_time hh mm ss h1 h2 h3
  have htime := storeArgs_callArgs_time ((hh * 10000 + mm * 100 + ss : Nat) : ℚ) vs
    { time_raw := t0, fix_raw := f0, g := readSentence g }
  rw [update_of_read t0 f0 g hread] at htrue ⊢
  unfold decode at htrue ⊢
  rw [hbuf, hscan] at htrue ⊢
  dsimp only at htrue ⊢
  generalize storeArgs callArgs (Val.flt ((hh * 10000 + mm * 100 + ss : Nat) : ℚ) :: vs)
    { time_raw := t0, fix_raw := f0, g := readSentence g } = t at *
  rw [← htime] at hH hM hS
  generalize truncToInt (f32round (t.time_raw + 80000)) = v at *
  by_cases hn : (1 : Int) ≤ ((Val.flt ((hh * 10000 + mm * 100 + ss : Nat) : ℚ) :: vs).length : Int)
  · simp only [hn, if_true] at htrue ⊢
    by_cases hf : t.fix_raw = FIX_NOT_AVAILABLE
    · simp only [hf, if_true] at htrue
      cases htrue
    · simp only [hf, if_false]
      exact ⟨hH, hM, hS⟩
  · simp only [hn, if_false] at htrue
    cases htrue

/-! ### The claims about decoding -/

theorem reachable_freshStation : Reachable freshStation :=
  Reachable.construct _ _ (List.length_replicate _ _)

theorem reachable_receive (g : State) (bytes : List Char) (hg : Reachable g)
    (h : g._rx_irq_enabled = true) : Reachable (receive g bytes) :=
  Reachable.irq _ (Reachable.arrive g bytes hg) h

/-- An instance: the fresh station that has received the quoted report. -/
theorem update_true_iff_example :
    Reachable (receive freshStation exampleSentence.wire) ∧
    (((update 0 0 (receive freshStation exampleSentence.wire)).1 = true ↔
      (completes (receive freshStation exampleSentence.wire) = true ∧
        1 ≤ (sscanf (cstr (readSentence (receive freshStation exampleSentence.wire)
          )._sentence_buffer) GGA_SENTENCE_FORMAT).1 ∧
        (update 0 0 (receive freshStation exampleSentence.wire)).2.fix ≠ FIX_NOT_AVAILABLE)) ∧
    (completes (receive freshStation exampleSentence.wire) = false →
      (update 0 0 (receive freshStation exampleSentence.wire)).1 = false)) :=
  ⟨reachable_receive _ _ reachable_freshStation rfl,
    update_true_iff _ (reachable_receive _ _ reachable_freshStation rfl) 0 0⟩

/-- C3 (code defect).  A call that completes a sentence whose fix-type code is 0 returns
`true`.  A fresh station decodes the quoted report; then the same report with fix code 0
arrives.  The second `update()` completes that sentence (the framing step consumes its
carriage return while in `READING_MESSAGE`); the sentence by itself is accepted by `sscanf`
with fix code 0, and a fresh station answers `false` to it.  Yet the call returns `true`
and publishes `GPS_FIX`: the write cursor was not reset after the first decode (C4), the
sentence stands at offset 72 and `sscanf` reads the first report again.  Every store is
below offset 144. -/
theorem completed_nofix_reported_as_fix :
    Reachable (receive (update 0 0 (receive freshStation exampleSentence.wire)).2
      noFixSentence.wire) ∧
    (update 0 0 (receive freshStation exampleSentence.wire)).1 = true ∧
    (update 0 0 (receive freshStation exampleSentence.wire)).2._data_read = 72 ∧
    completes (receive (update 0 0 (receive freshStation exampleSentence.wire)).2
      noFixSentence.wire) = true ∧
    cstr (readSentence (receive (update 0 0 (receive freshStation exampleSentence.wire)).2
      noFixSentence.wire))._sentence_buffer = exampleSentence.body ++ noFixSentence.body ∧
    (readSentence (receive (update 0 0 (receive freshStation exampleSentence.wire)).2
      noFixSentence.wire))._data_read = 144 ∧
    1 ≤ (sscanf noFixSentence.body GGA_SENTENCE_FORMAT).1 ∧
    (sscanf noFixSentence.body GGA_SENTENCE_FORMAT).2.get? 5 = some (Val.int FIX_NOT_AVAILABLE) ∧
    (update 0 0 (receive freshStation noFixSentence.wire)).1 = false ∧
    (update 0 0 (receive (update 0 0 (receive freshStation exampleSentence.wire)).2
      noFixSentence.wire)).1 = true ∧
    (update 0 0 (receive (update 0 0 (receive freshStation exampleSentence.wire)).2
      noFixSentence.wire)).2.fix = GPS_FIX ∧
    noFixSentence.wire =
      "$GPGGA,092010.000,5210.9546,N,00008.8913,E,0,07,1.3,9.7,M,47.0,M,,0000*5D\r".toList :=
  ⟨reachable_receive _ _
      (Reachable.update _ 0 0 (reachable_receive _ _ reachable_freshStation rfl)) (by decide!),
    by decide!, by decide!, by decide!, by decide!, by decide!, by decide!, by decide!,
    by decide!, by decide!, by decide!, by decide⟩

/-- C4 (code defect).  `update()` does not reset the write cursor after decoding: after the
quoted report `_data_read` is 72, the next report is stored behind the first, and the second
`update()` decodes the first report again (seconds 10, seven satellites) although the
report just received says seconds 11 and eight satellites. -/
theorem second_sentence_stale :
    (update 0 0 (receive freshStation exampleSentence.wire)).1 = true ∧
    (update 0 0 (receive freshStation exampleSentence.wire)).2._data_read = 72 ∧
    cstr (readSentence (receive (update 0 0 (receive freshStation exampleSentence.wire)).2
      secondSentence.wire))._sentence_buffer = exampleSentence.body ++ secondSentence.body ∧
    (update 0 0 (receive (update 0 0 (receive freshStation exampleSentence.wire)).2
      secondSentence.wire)).1 = true ∧
    (update 0 0 (receive (update 0 0 (receive freshStation exampleSentence.wire)).2
      secondSentence.wire)).2.seconds = 10 ∧
    (update 0 0 (receive (update 0 0 (receive freshStation exampleSentence.wire)).2
      secondSentence.wire)).2.nsats = 7 ∧
    secondSentence.ss = 11 ∧ decVal secondSentence.nsats = 8 ∧
    secondSentence.wire =
      "$GPGGA,092011.000,5210.9546,N,00008.8913,E,1,08,1.3,9.7,M,47.0,M,,0000*5D\r".toList := by
  decide!

/-- A station locked in `MESSAGE_READ` stays there: every later `update()` discards what
was received, returns `false` and leaves the framer as it was. -/
theorem message_read_absorbs (g : State) (bytes : List Char) (t0 : ℚ) (f0 : Int)
    (hs : g._state = InputState.MESSAGE_READ) (hd : g._data_read ≠ MAX_SENTENCE_SIZE)
    (hrej : (sscanf (cstr g._sentence_buffer) GGA_SENTENCE_FORMAT).1 < 1) :
    (update t0 f0 (receive g bytes)).1 = false ∧
    (update t0 f0 (receive g bytes)).2._state = InputState.MESSAGE_READ ∧
    (update t0 f0 (receive g bytes)).2._data_read = g._data_read ∧
    (update t0 f0 (receive g bytes)).2._sentence_buffer = g._sentence_buffer := by
  obtain ⟨_, i2, i3, i4⟩ := rx_irq_frame { g with serial_rx := g.serial_rx ++ bytes }
  have hs' : (receive g bytes)._state = InputState.MESSAGE_READ := by
    unfold receive; rw [i2]; exact hs
  have hd' : (receive g bytes)._data_read ≠ MAX_SENTENCE_SIZE := by
    unfold receive; rw [i4]; exact hd
  have hb' : (receive g bytes)._sentence_buffer = g._sentence_buffer := by
    unfold receive; rw [i3]
  have hdr' : (receive g bytes)._data_read = g._data_read := by
    unfold receive; rw [i4]
  have hc : completes (receive g bytes) = false := by
    unfold completes
    rw [readLoop_idle _ _ _ (Or.inl hs')]
    simp
  rcases readSentence_not_completes _ hc with h | h | h | ⟨_, h2, h3⟩
  · exfalso
    unfold readSentence at h
    rw [if_neg hd', readLoop_idle _ _ _ (Or.inl hs')] at h
    simp only [Bool.false_eq_true, if_false, (rearm_frame _).2.1, hs'] at h
    cases h
  · exfalso
    unfold readSentence at h
    rw [if_neg hd', readLoop_idle _ _ _ (Or.inl hs')] at h
    simp only [Bool.false_eq_true, if_false, (rearm_frame _).2.1, hs'] at h
    cases h
  · exfalso
    unfold readSentence at h
    rw [if_neg hd', readLoop_idle _ _ _ (Or.inl hs')] at h
    simp only [Bool.false_eq_true, if_false, (rearm_frame _).2.1, hs'] at h
    cases h
  · have hdr2 : (readSentence (receive g bytes))._data_read = g._data_read := by
      unfold readSentence
      rw [if_neg hd', readLoop_idle _ _ _ (Or.inl hs')]
      simp only [Bool.false_eq_true, if_false, (rearm_frame _).2.2.2]
      exact hdr'
    rw [update_of_read t0 f0 _ h2, decode_rejected t0 f0 _ (by rw [h3, hb']; exact hrej)]
    exact ⟨rfl, h2, hdr2, h3.trans hb'⟩

/-- C5 (code defect).  A sentence that `sscanf` rejects leaves the framer in `MESSAGE_READ`
instead of `LOOK_FOR_DOLLA`: after `$XX\r` the station is locked, and whatever is received
next, the quoted well-formed report included, `update()` returns `false` and stays in
`MESSAGE_READ`. -/
theorem rejected_sentence_locks :
    (update 0 0 (receive freshStation garbageWire)).1 = false ∧
    (update 0 0 (receive freshStation garbageWire)).2._state = InputState.MESSAGE_READ ∧
    (update 0 0 (receive (update 0 0 (receive freshStation garbageWire)).2
      exampleSentence.wire)).1 = false ∧
    (∀ (bytes : List Char) (t0 : ℚ) (f0 : Int),
      (update t0 f0 (receive (update 0 0 (receive freshStation garbageWire)).2 bytes)).1 = false ∧
      (update t0 f0 (receive (update 0 0 (receive freshStation garbageWire)).2 bytes)).2._state
        = InputState.MESSAGE_READ) := by
  have h1 : (update 0 0 (receive freshStation garbageWire)).1 = false := by decide!
  have h2 : (update 0 0 (receive freshStation garbageWire)).2._state
      = InputState.MESSAGE_READ := by decide!
  have h3 : (update 0 0 (receive freshStation garbageWire)).2._data_read
      ≠ MAX_SENTENCE_SIZE := by decide!
  have h4 : (sscanf (cstr (update 0 0 (receive freshStation garbageWire)).2._sentence_buffer)
      GGA_SENTENCE_FORMAT).1 < 1 := by decide!
  have key := fun bytes t0 f0 =>
    message_read_absorbs (update 0 0 (receive freshStation garbageWire)).2 bytes t0 f0 h2 h3 h4
  exact ⟨h1, h2, (key _ 0 0).1, fun bytes t0 f0 => ⟨(key bytes t0 f0).1, (key bytes t0 f0).2.1⟩⟩

/-- C6 (counterexample).  The example report cut off after the fix-type field matches six of
the thirteen conversions only, yet `update()` returns `true` and the published sample
changes. -/
theorem truncated_sentence_accepted :
    (sscanf "GPGGA,092010.000,5210.9546,N,00008.8913,E,1".toList GGA_SENTENCE_FORMAT).1 = 6 ∧
    (update 0 0 (receive freshStation truncatedWire)).1 = true ∧
    (update 0 0 (receive freshStation truncatedWire)).2.hour = 17 ∧
    (receive freshStation truncatedWire).hour = 0 ∧
    (update 0 0 (receive freshStation truncatedWire)).2.fix = GPS_FIX ∧
    (receive freshStation truncatedWire).fix = FIX_NOT_AVAILABLE ∧
    (update 0 0 (receive freshStation truncatedWire)).2.ns = 'N' ∧
    (receive freshStation truncatedWire).ns = NUL := by
  decide!

/-- C6 (amended).  When the framing step of `update()` ends in `MESSAGE_READ` and `sscanf`
assigns no item from the working buffer (its return value is below 1), `update()` returns
`false` and no published field changes. -/
theorem update_rejects (g : State) (t0 : ℚ) (f0 : Int)
    (hread : (readSentence g)._state = InputState.MESSAGE_READ)
    (hrej : (sscanf (cstr (readSentence g)._sentence_buffer) GGA_SENTENCE_FORMAT).1 < 1) :
    (update t0 f0 g).1 = false ∧ published (update t0 f0 g).2 = published g := by
  rw [update_of_read t0 f0 g hread, decode_rejected t0 f0 _ hrej]
  exact ⟨rfl, readSentence_published g⟩

/-- Witness of the amended C6: `$XX\r` received by a fresh station. -/
theorem update_rejects_example :
    (readSentence (receive freshStation garbageWire))._state = InputState.MESSAGE_READ ∧
    (sscanf (cstr (readSentence (receive freshStation garbageWire))._sentence_buffer)
      GGA_SENTENCE_FORMAT).1 < 1 ∧
    (update 0 0 (receive freshStation garbageWire)).1 = false ∧
    published (update 0 0 (receive freshStation garbageWire)).2
      = published (receive freshStation garbageWire) :=
  ⟨by decide!, by decide!,
    update_rejects (receive freshStation garbageWire) 0 0 (by decide!) (by decide!)⟩

/-- C7 (code defect).  The capacity test runs only on entry to `readSentence` and tests for
equality: when `$` and 85 further bytes are queued before one `update()`, the loop stores
all of them, `_data_read` becomes 85 and passes `MAX_SENTENCE_SIZE`; this call and the
next return `false` with the framer still in `READING_MESSAGE`, never in
`MESSAGE_OVERFLOW`, and the write cursor is not reset. -/
theorem burst_skips_overflow :
    burstWire.length = 1 + (MAX_SENTENCE_SIZE + 1) ∧
    (update 0 0 (receive freshStation burstWire)).1 = false ∧
    (readSentence (receive freshStation burstWire))._state = InputState.READING_MESSAGE ∧
    (update 0 0 (receive freshStation burstWire)).2._state = InputState.READING_MESSAGE ∧
    (update 0 0 (receive freshStation burstWire)).2._data_read = 85 ∧
    (update 0 0 (receive freshStation burstWire)).2._rxbuf.data = [] ∧
    (update 0 0 (update 0 0 (receive freshStation burstWire)).2).1 = false ∧
    (readSentence (update 0 0 (receive freshStation burstWire)).2)._state
      = InputState.READING_MESSAGE ∧
    (update 0 0 (update 0 0 (receive freshStation burstWire)).2).2._state
      = InputState.READING_MESSAGE ∧
    (update 0 0 (update 0 0 (receive freshStation burstWire)).2).2._data_read = 85 := by
  decide!

/-- C8 (local-time decomposition).  When `update()` returns `true` for a sentence whose
UTC time field is the whole-second value `HHMMSS.000`, it publishes hour `HH + 8`,
minutes `MM` and seconds `SS`; these are `v / 10000`, `v % 10000 / 100` and `v % 100`
for `v = HHMMSS + 80000`. -/
theorem update_local_time (hh mm ss : Nat) (h1 : hh ≤ 23) (h2 : mm ≤ 59) (h3 : ss ≤ 59)
    (t1 t2 : Char) (tl : List Char) (htl : stops floatCont tl)
    (g : State) (t0 : ℚ) (f0 : Int)
    (hread : (readSentence g)._state = InputState.MESSAGE_READ)
    (hbuf : cstr (readSentence g)._sentence_buffer =
      t1 :: t2 :: 'G' :: 'G' :: 'A' :: ',' :: ((timeNum hh mm ss).text ++ tl))
    (htrue : (update t0 f0 g).1 = true) :
    (update t0 f0 g).2.hour = (hh : Int) + 8 ∧ (update t0 f0 g).2.minutes = mm ∧
    (update t0 f0 g).2.seconds = ss ∧
    (update t0 f0 g).2.hour = ((hh * 10000 + mm * 100 + ss + 80000 : Nat) : Int) / 10000 ∧
    (update t0 f0 g).2.minutes
      = ((hh * 10000 + mm * 100 + ss + 80000 : Nat) : Int) % 10000 / 100 ∧
    (update t0 f0 g).2.seconds = ((hh * 10000 + mm * 100 + ss + 80000 : Nat) : Int) % 100 := by
  obtain ⟨hH, hM, hS⟩ :=
    update_time_fields hh mm ss h1 h2 h3 t1 t2 tl htl g t0 f0 hread hbuf htrue
  refine ⟨hH, hM, hS, ?_, ?_, ?_⟩
  · rw [hH]; omega
  · rw [hM]; omega
  · rw [hS]; omega

/-- Witness of C8: the quoted report, time field `092010.000`. -/
theorem update_local_time_example :
    (timeNum 9 20 10).text = "092010.000".toList ∧
    (update 0 0 (receive freshStation exampleSentence.wire)).2.hour = 17 ∧
    (update 0 0 (receive freshStation exampleSentence.wire)).2.minutes = 20 ∧
    (update 0 0 (receive freshStation exampleSentence.wire)).2.seconds = 10 := by
  obtain ⟨hH, hM, hS, _⟩ := update_local_time 9 20 10 (by decide) (by decide) (by decide)
    'G' 'P' ",5210.9546,N,00008.8913,E,1,07,1.3,9.7,M,47.0,M,,0000*5D".toList
    (stops_comma _ (by decide) _) (receive freshStation exampleSentence.wire) 0 0
    (by decide!) (by decide!) (by decide!)
  exact ⟨by decide, hH, hM, hS⟩

/-- C9 (no wrap-around at midnight).  When `update()` returns `true` for a sentence whose
whole-second UTC time has an hour `HH` from 16 to 23, the published hour is `HH + 8`, which
lies between 24 and 31 and differs from `(HH + 8) % 24`. -/
theorem update_hour_not_wrapped (hh mm ss : Nat) (h16 : 16 ≤ hh) (h1 : hh ≤ 23) (h2 : mm ≤ 59)
    (h3 : ss ≤ 59) (t1 t2 : Char) (tl : List Char) (htl : stops floatCont tl)
    (g : State) (t0 : ℚ) (f0 : Int)
    (hread : (readSentence g)._state = InputState.MESSAGE_READ)
    (hbuf : cstr (readSentence g)._sentence_buffer =
      t1 :: t2 :: 'G' :: 'G' :: 'A' :: ',' :: ((timeNum hh mm ss).text ++ tl))
    (htrue : (update t0 f0 g).1 = true) :
    (update t0 f0 g).2.hour = (hh : Int) + 8 ∧ 24 ≤ (update t0 f0 g).2.hour ∧
    (update t0 f0 g).2.hour ≤ 31 ∧ (update t0 f0 g).2.hour ≠ ((hh : Int) + 8) % 24 := by
  obtain ⟨hH, _, _⟩ :=
    update_time_fields hh mm ss h1 h2 h3 t1 t2 tl htl g t0 f0 hread hbuf htrue
  rw [hH]
  refine ⟨rfl, by omega, by omega, by omega⟩

/-- Witness of C9: a report timed 23:59:59 UTC is published with hour 31. -/
theorem update_hour_not_wrapped_example :
    (timeNum 23 59 59).text = "235959.000".toList ∧
    (update 0 0 (receive freshStation lateSentence.wire)).1 = true ∧
    (update 0 0 (receive freshStation lateSentence.wire)).2.hour = 31 := by
  obtain ⟨hH, _⟩ := update_hour_not_wrapped 23 59 59 (by decide) (by decide) (by decide)
    (by decide) 'G' 'P' ",5210.9546,N,00008.8913,E,1,07,1.3,9.7,M,47.0,M,,0000*5D".toList
    (stops_comma _ (by decide) _) (receive freshStation lateSentence.wire) 0 0
    (by decide!) (by decide!) (by decide!)
  exact ⟨by decide, by decide!, hH⟩

/-- C10 (code defect).  On the report quoted in the source, whose differential-age field is
empty, `%f` fails at that field: `sscanf` returns 10, `update()` returns `true`, and the
checksum keeps its previous value 0 instead of `0x5D`. -/
theorem example_checksum_not_stored :
    exampleSentence.checksum = ['5', 'D'] ∧ hexVal exampleSentence.checksum = 0x5D ∧
    (sscanf exampleSentence.body GGA_SENTENCE_FORMAT).1 = 10 ∧
    (update 0 0 (receive freshStation exampleSentence.wire)).1 = true ∧
    (update 0 0 (receive freshStation exampleSentence.wire)).2.checksum = 0 := by
  decide!

/-! ### Calls that decode nothing -/

/-- C11 (no mutation without a decode).  For every state and every queued input: when the
framing step of `update()` ends in `LOOK_FOR_DOLLA`, `READING_MESSAGE` or
`MESSAGE_OVERFLOW`, the call returns `false` and each of the fifteen published fields
(hour, minutes, seconds, latitude, ns, longitude, ew, fix, nsats, hdop, alt, geoid,
age_of_diff, diff_ref_station, checksum) has the value it had before the call. -/
theorem update_without_decode (g : State) (t0 : ℚ) (f0 : Int)
    (h : (readSentence g)._state = InputState.LOOK_FOR_DOLLA ∨
      (readSentence g)._state = InputState.READING_MESSAGE ∨
      (readSentence g)._state = InputState.MESSAGE_OVERFLOW) :
    (update t0 f0 g).1 = false ∧ published (update t0 f0 g).2 = published g := by
  refine ⟨update_false_of_state t0 f0 g h, ?_⟩
  have hp := readSentence_published g
  unfold update
  rcases h with h | h | h <;> simp only [h] <;> exact hp

/-- Witness of C11: a station that has published the quoted report and then receives the
beginning of another sentence keeps the published sample. -/
theorem update_without_decode_example :
    (readSentence (receive (update 0 0 (receive freshStation exampleSentence.wire)).2
      "$GPGGA,0920".toList))._state = InputState.READING_MESSAGE ∧
    (update 0 0 (receive (update 0 0 (receive freshStation exampleSentence.wire)).2
      "$GPGGA,0920".toList)).1 = false ∧
    published (update 0 0 (receive (update 0 0 (receive freshStation exampleSentence.wire)).2
      "$GPGGA,0920".toList)).2
      = published (receive (update 0 0 (receive freshStation exampleSentence.wire)).2
          "$GPGGA,0920".toList) ∧
    (receive (update 0 0 (receive freshStation exampleSentence.wire)).2
      "$GPGGA,0920".toList).hour = 17 :=
  ⟨by decide!,
    (update_without_decode _ 0 0 (Or.inr (Or.inl (by decide!)))).1,
    (update_without_decode (receive (update 0 0 (receive freshStation exampleSentence.wire)).2
      "$GPGGA,0920".toList) 0 0 (Or.inr (Or.inl (by decide!)))).2,
    by decide!⟩

/-! ### Noise before a sentence -/

/-- The bytes still queued do not influence the loop: it reads them from its argument. -/
theorem readLoop_queue (xs : List Char) : ∀ (g g1 : State) (p : Nat) (d : List Char),
    g1 = { g with _rxbuf := { g._rxbuf with data := d } } →
    readLoop g1 p xs = readLoop g p xs := by
  induction xs with
  | nil => intro g g1 p d h; subst h; rfl
  | cons c cs ih =>
    intro g g1 p d h
    subst h
    obtain ⟨f1, f2, f3, f4, f5, f6, f7, f8, f9, f10, f11, f12, f13, f14, f15, buf, st, dr, f19,
      f20, rb, hw⟩ := g
    cases st with
    | LOOK_FOR_DOLLA =>
      simp only [readLoop]
      split
      · exact ih _ _ _ d rfl
      · exact ih _ _ _ d rfl
    | READING_MESSAGE =>
      simp only [readLoop]
      split
      · rfl
      · exact ih _ _ _ d rfl
    | MESSAGE_READ =>
      simp only [readLoop]
      exact ih _ _ _ d rfl
    | MESSAGE_OVERFLOW =>
      simp only [readLoop]
      exact ih _ _ _ d rfl

/-- While looking for `$` the loop discards every other byte. -/
theorem readLoop_noise (noise : List Char) (hn : ∀ c ∈ noise, c ≠ '$') (g : State) (p : Nat)
    (xs : List Char) (hs : g._state = InputState.LOOK_FOR_DOLLA) :
    readLoop g p (noise ++ xs) = readLoop g p xs := by
  induction noise with
  | nil => rfl
  | cons c cs ih =>
    have hc : c ≠ '$' := hn c (List.mem_cons_self _ _)
    rw [List.cons_append]
    conv => lhs; unfold readLoop
    simp only [hs, hc, if_false]
    exact ih (fun x hx => hn x (List.mem_cons_of_mem _ hx))

theorem readSentence_queue_noise (g : State) (noise xs : List Char)
    (hs : g._state = InputState.LOOK_FOR_DOLLA) (hd : g._data_read ≠ MAX_SENTENCE_SIZE)
    (hn : ∀ c ∈ noise, c ≠ '$') :
    readSentence { g with _rxbuf := { g._rxbuf with data := noise ++ xs } }
      = readSentence { g with _rxbuf := { g._rxbuf with data := xs } } := by
  unfold readSentence
  dsimp only
  rw [if_neg hd, if_neg hd, readLoop_queue _ g _ _ (noise ++ xs) rfl,
    readLoop_queue _ g _ _ xs rfl, readLoop_noise noise hn g _ xs hs]

theorem update_congr (t0 : ℚ) (f0 : Int) (g g1 : State) (h : readSentence g = readSentence g1) :
    update t0 f0 g = update t0 f0 g1 := by
  unfold update
  rw [h]

/-- C14 (resynchronization).  For a station that looks for `$` with write cursor 0, a noise
run without `$` in front of a sentence `$ body \r` changes nothing: the framing step ends
in the same state (framer state, write cursor, working buffer and every other member), and
`update()` gives the same result and the same published sample, as for the sentence
alone. -/
theorem resynchronization (g : State) (noise body rest : List Char) (t0 : ℚ) (f0 : Int)
    (hs : g._state = InputState.LOOK_FOR_DOLLA) (hd : g._data_read = 0)
    (hn : ∀ c ∈ noise, c ≠ '$') :
    readSentence { g with _rxbuf :=
        { g._rxbuf with data := noise ++ '$' :: (body ++ '\r' :: rest) } }
      = readSentence { g with _rxbuf :=
        { g._rxbuf with data := '$' :: (body ++ '\r' :: rest) } } ∧
    update t0 f0 { g with _rxbuf :=
        { g._rxbuf with data := noise ++ '$' :: (body ++ '\r' :: rest) } }
      = update t0 f0 { g with _rxbuf :=
        { g._rxbuf with data := '$' :: (body ++ '\r' :: rest) } } := by
  have h := readSentence_queue_noise g noise ('$' :: (body ++ '\r' :: rest)) hs
    (by rw [hd]; decide) hn
  exact ⟨h, update_congr t0 f0 _ _ h⟩

/-- Witness of C14: line noise and the tail of an earlier sentence before the quoted
report. -/
theorem resynchronization_example :
    update 0 0 { freshStation with _rxbuf := { freshStation._rxbuf with
        data := "\n7.0,M,,0000*5D\r\n".toList ++ '$' :: (exampleSentence.body ++ '\r' :: []) } }
      = update 0 0 { freshStation with _rxbuf := { freshStation._rxbuf with
        data := '$' :: (exampleSentence.body ++ '\r' :: []) } } :=
  (resynchronization freshStation "\n7.0,M,,0000*5D\r\n".toList exampleSentence.body [] 0 0
    rfl rfl (by decide)).2

/-! ### One sentence per call -/

theorem decode_queue (t0 : ℚ) (f0 : Int) (g1 : State) :
    (decode t0 f0 g1).2._rxbuf = g1._rxbuf ∧ (decode t0 f0 g1).2.serial_rx = g1.serial_rx ∧
    (decode t0 f0 g1).2._rx_irq_enabled = g1._rx_irq_enabled ∧
    (decode t0 f0 g1).2._rx_enabled = g1._rx_enabled := by
  obtain ⟨_, _, _, k4, k5, k6, k7⟩ := storeArgs_frame callArgs
    (sscanf (cstr g1._sentence_buffer) GGA_SENTENCE_FORMAT).2
    { time_raw := t0, fix_raw := f0, g := g1 }
  unfold decode
  dsimp only
  generalize storeArgs callArgs (sscanf (cstr g1._sentence_buffer) GGA_SENTENCE_FORMAT).2
    { time_raw := t0, fix_raw := f0, g := g1 } = t at *
  generalize truncToInt (f32round (t.time_raw + 80000)) = v
  split
  · split
    · exact ⟨k4, k5, k6, k7⟩
    · exact ⟨k4, k5, k6, k7⟩
  · exact ⟨k4, k5, k6, k7⟩

theorem manualFixSentence_wellFormed : manualFixSentence.WellFormed :=
  { exampleSentence_wellFormed with fixq := ⟨by decide, by decide⟩ }

/-- C18 (counterexample).  The quoted report with fix code 7 is decoded by a fresh station
and leaves the published fix type at 7, which is none of the six enumerated values. -/
theorem fix_type_out_of_range :
    manualFixSentence.wire =
      "$GPGGA,092010.000,5210.9546,N,00008.8913,E,7,07,1.3,9.7,M,47.0,M,,0000*5D\r".toList ∧
    Reachable (update 0 0 (receive freshStation manualFixSentence.wire)).2 ∧
    (update 0 0 (receive freshStation manualFixSentence.wire)).1 = true ∧
    (update 0 0 (receive freshStation manualFixSentence.wire)).2.fix = 7 ∧
    ¬ (0 ≤ (update 0 0 (receive freshStation manualFixSentence.wire)).2.fix ∧
        (update 0 0 (receive freshStation manualFixSentence.wire)).2.fix ≤ 5) :=
  ⟨by decide,
    Reachable.update _ 0 0 (reachable_receive _ _ reachable_freshStation rfl),
    by decide!, by decide!, by decide!⟩

/-- C18 (amended).  The published fix type is the fix-type code of the decoded sentence,
stored without a range check: when the framing step of `update()` ends in `MESSAGE_READ`
with the working buffer holding a sentence that matches the grammar and whose fix-type
code is a number that an `int` holds, the published fix type afterwards equals the
sentence's code, so it lies in `0..5` exactly when the code does. -/
theorem update_fix_is_code (s : Sentence) (hs : s.WellFormed)
    (hint : (decVal s.fixq : Int) ≤ INT_MAX) (g : State) (t0 : ℚ) (f0 : Int)
    (hread : (readSentence g)._state = InputState.MESSAGE_READ)
    (hbuf : cstr (readSentence g)._sentence_buffer = s.body) :
    (update t0 f0 g).2.fix = decVal s.fixq ∧
    ((0 ≤ (update t0 f0 g).2.fix ∧ (update t0 f0 g).2.fix ≤ RTK_FLOAT) ↔ decVal s.fixq ≤ 5) := by
  have h32 : int32 (decVal s.fixq : Int) = decVal s.fixq :=
    int32_of_range _ (Int.natCast_nonneg _) hint
  have hfix : (update t0 f0 g).2.fix = decVal s.fixq := by
    rw [update_of_read t0 f0 g hread]
    by_cases h0 : int32 (decVal s.fixq : Int) = 0
    · have h := (decode_nofix s hs h0 (readSentence g) hbuf t0 f0).2.2.2.2.2.2.2.2.2.1
      rw [h, ← h32, h0]; rfl
    · rw [← h32]
      exact (decode_fix s hs h0 (readSentence g) hbuf t0 f0).2.2.2.2.2.2.2.2.1
  refine ⟨hfix, ?_⟩
  rw [hfix]
  simp only [RTK_FLOAT]
  omega

/-- Witness of the amended C18: the report with fix code 7. -/
theorem update_fix_is_code_example :
    (decVal manualFixSentence.fixq : Int) ≤ INT_MAX ∧
    (update 0 0 (receive freshStation manualFixSentence.wire)).2.fix
      = decVal manualFixSentence.fixq ∧
    ((0 ≤ (update 0 0 (receive freshStation manualFixSentence.wire)).2.fix ∧
        (update 0 0 (receive freshStation manualFixSentence.wire)).2.fix ≤ RTK_FLOAT)
      ↔ decVal manualFixSentence.fixq ≤ 5) :=
  ⟨by decide, update_fix_is_code manualFixSentence manualFixSentence_wellFormed (by decide)
    (receive freshStation manualFixSentence.wire) 0 0 (by decide!) (by decide!)⟩

/-- C16 (code defect).  The write cursor passes `MAX_SENTENCE_SIZE`: the capacity test runs
only on entry to `readSentence`, so one call on `$` and 85 queued bytes leaves
`_data_read = 85`.  Nothing bounds it afterwards: after `$` and 255 bytes in one call and
two more bytes in the next, `_data_read` is 257 and the last store went through offset 256,
past the end of `char _sentence_buffer[256]`. -/
theorem cursor_passes_capacity :
    Reachable (update 0 0 (receive freshStation burstWire)).2 ∧
    (update 0 0 (receive freshStation burstWire)).2._data_read = MAX_SENTENCE_SIZE + 1 ∧
    Reachable (update 0 0 (receive (update 0 0 (receive freshStation floodWire)).2
      ['A', 'A'])).2 ∧
    (update 0 0 (receive freshStation floodWire)).2._data_read = 255 ∧
    (update 0 0 (receive (update 0 0 (receive freshStation floodWire)).2
      ['A', 'A'])).2._data_read = SENTENCE_BUFFER_SIZE + 1 :=
  ⟨Reachable.update _ 0 0 (reachable_receive _ _ reachable_freshStation rfl),
    by decide!,
    Reachable.update _ 0 0 (reachable_receive _ _
      (Reachable.update _ 0 0 (reachable_receive _ _ reachable_freshStation rfl)) (by decide!)),
    by decide!, by decide!⟩

/-! ### Backpressure -/

/-- The fill loop appends the bytes it takes from the peripheral, in order, never past the
capacity, and keeps what was queued before. -/
theorem rx_fill_spec (hw : List Char) : ∀ (b : CircularBuffer),
    ∃ moved, hw = moved ++ (rx_fill hw b).1 ∧ (rx_fill hw b).2.data = b.data ++ moved ∧
      (rx_fill hw b).2.capacity = b.capacity ∧
      (b.data.length ≤ b.capacity → (rx_fill hw b).2.data.length ≤ b.capacity) := by
  induction hw with
  | nil => intro b; exact ⟨[], rfl, by simp [rx_fill], rfl, fun h => h⟩
  | cons c hw ih =>
    intro b
    unfold rx_fill
    by_cases hf : b.full = true
    · rw [if_pos hf]
      exact ⟨[], rfl, by simp, rfl, fun h => h⟩
    · rw [if_neg hf]
      have hlt : b.data.length < b.capacity := by
        simp only [CircularBuffer.full, decide_eq_true_eq, not_le] at hf
        exact hf
      have hpush : b.push c = { b with data := b.data ++ [c] } := by
        unfold CircularBuffer.push
        rw [if_neg hf]
      obtain ⟨moved, h1, h2, h3, h4⟩ := ih (b.push c)
      rw [hpush] at h1 h2 h3 h4
      rw [hpush]
      refine ⟨c :: moved, ?_, ?_, h3, ?_⟩
      · rw [List.cons_append, ← h1]
      · rw [h2]; simp
      · intro _
        exact h4 (by simp; omega)

theorem rx_irq_backpressure (g : State) (h : g._rxbuf.data.length ≤ g._rxbuf.capacity) :
    Backpressure (rx_irq g) ∧ (rx_irq g)._rxbuf.capacity = g._rxbuf.capacity ∧
    ((rx_irq g)._rx_irq_enabled = true → g._rx_irq_enabled = true) := by
  obtain ⟨moved, _, _, h3, h4⟩ := rx_fill_spec g.serial_rx g._rxbuf
  unfold rx_irq disable_rx_irq Backpressure
  dsimp only
  by_cases hc : (g._rx_irq_enabled && (rx_fill g.serial_rx g._rxbuf).2.full) = true
  · rw [if_pos hc]
    dsimp only
    rw [h3]
    exact ⟨⟨h4 h, fun hh => by cases hh⟩, rfl, fun hh => by cases hh⟩
  · rw [if_neg hc]
    dsimp only
    rw [h3]
    refine ⟨⟨h4 h, ?_⟩, rfl, fun hh => hh⟩
    intro harm
    have hnf : (rx_fill g.serial_rx g._rxbuf).2.full = false := by
      cases hfull : (rx_fill g.serial_rx g._rxbuf).2.full with
      | false => rfl
      | true => exact absurd (by rw [harm, hfull]; rfl) hc
    simp only [CircularBuffer.full, decide_eq_false_iff_not, not_le, h3] at hnf
    exact hnf

theorem rearm_backpressure (g : State) (h : Backpressure g) :
    Backpressure (rearm g) ∧ (rearm g)._rxbuf.capacity = g._rxbuf.capacity ∧
    (g._rx_irq_enabled = false → (rearm g)._rx_irq_enabled = true →
      (rearm g)._rxbuf.full = false) := by
  obtain ⟨⟨b1, b2⟩, hcap, harm⟩ := rx_irq_backpressure g h.1
  unfold rearm enable_rx_irq
  dsimp only
  by_cases hc : (g._rx_enabled && !g._rx_irq_enabled) = true
  · rw [if_pos hc]
    by_cases hf : (!(rx_irq g)._rxbuf.full) = true
    · rw [if_pos hf]
      have hnf : (rx_irq g)._rxbuf.full = false := by simpa using hf
      refine ⟨⟨b1, fun _ => ?_⟩, hcap, fun _ _ => hnf⟩
      simp only [CircularBuffer.full, decide_eq_false_iff_not, not_le] at hnf
      exact hnf
    · rw [if_neg hf]
      have hdis : g._rx_irq_enabled = false := by
        simp only [Bool.and_eq_true, Bool.not_eq_true'] at hc
        exact hc.2
      refine ⟨⟨b1, b2⟩, hcap, fun _ h2 => ?_⟩
      have := harm h2
      rw [hdis] at this
      cases this
  · rw [if_neg hc]
    refine ⟨h, rfl, fun h1 h2 => ?_⟩
    rw [h1] at h2
    cases h2

/-- The loop only removes bytes from the queue and does not touch the interrupt flag. -/
theorem readLoop_queue_shrinks (xs : List Char) : ∀ (g : State) (p : Nat),
    (readLoop g p xs).1._rxbuf.capacity = g._rxbuf.capacity ∧
    (readLoop g p xs).1._rxbuf.data.length ≤ xs.length ∧
    (readLoop g p xs).1._rx_irq_enabled = g._rx_irq_enabled := by
  induction xs with
  | nil => intro g p; exact ⟨rfl, le_refl _, rfl⟩
  | cons c cs ih =>
    intro g p
    unfold readLoop
    split
    · split
      · obtain ⟨a, b, d⟩ := ih { g with _state := InputState.READING_MESSAGE } p
        exact ⟨a, by simp only [List.length_cons]; omega, d⟩
      · obtain ⟨a, b, d⟩ := ih g p
        exact ⟨a, by simp only [List.length_cons]; omega, d⟩
    · split
      · exact ⟨rfl, by simp, rfl⟩
      · obtain ⟨a, b, d⟩ := ih { g with _sentence_buffer := g._sentence_buffer.set p c
                                        _data_read := g._data_read + 1 } (p + 1)
        exact ⟨a, by simp only [List.length_cons]; omega, d⟩
    · obtain ⟨a, b, d⟩ := ih g p
      exact ⟨a, by simp only [List.length_cons]; omega, d⟩

theorem readSentence_backpressure (g : State) (h : Backpressure g) :
    Backpressure (readSentence g) ∧ (readSentence g)._rxbuf.capacity = g._rxbuf.capacity ∧
    (g._rx_irq_enabled = false → (readSentence g)._rx_irq_enabled = true →
      (readSentence g)._rxbuf.full = false) := by
  obtain ⟨q1, q2, q3⟩ := readLoop_queue_shrinks g._rxbuf.data g g._data_read
  have hloop : Backpressure (readLoop g g._data_read g._rxbuf.data).1 := by
    unfold Backpressure
    rw [q1, q3]
    exact ⟨by have := h.1; omega, fun ha => by have := h.2 ha; omega⟩
  unfold readSentence
  by_cases h84 : g._data_read = MAX_SENTENCE_SIZE
  · rw [if_pos h84]
    refine ⟨h, rfl, fun h1 h2 => ?_⟩
    rw [h1] at h2
    cases h2
  · rw [if_neg h84]
    dsimp only
    by_cases hr : (readLoop g g._data_read g._rxbuf.data).2 = true
    · rw [if_pos hr]
      refine ⟨hloop, q1, fun h1 h2 => ?_⟩
      rw [q3, h1] at h2
      cases h2
    · rw [if_neg hr]
      obtain ⟨r1, r2, r3⟩ := rearm_backpressure _ hloop
      exact ⟨r1, r2.trans q1, fun h1 h2 => r3 (by rw [q3]; exact h1) h2⟩

theorem update_backpressure (t0 : ℚ) (f0 : Int) (g : State) (h : Backpressure g) :
    Backpressure (update t0 f0 g).2 ∧ (update t0 f0 g).2._rxbuf.capacity = g._rxbuf.capacity ∧
    (g._rx_irq_enabled = false → (update t0 f0 g).2._rx_irq_enabled = true →
      (update t0 f0 g).2._rxbuf.full = false) := by
  obtain ⟨r1, r2, r3⟩ := readSentence_backpressure g h
  cases hs : (readSentence g)._state with
  | LOOK_FOR_DOLLA =>
    have : update t0 f0 g = (false, readSentence g) := by unfold update; simp only [hs]
    rw [this]; exact ⟨r1, r2, r3⟩
  | READING_MESSAGE =>
    have : update t0 f0 g = (false, readSentence g) := by unfold update; simp only [hs]
    rw [this]; exact ⟨r1, r2, r3⟩
  | MESSAGE_OVERFLOW =>
    have : update t0 f0 g = (false, { readSentence g with
        _data_read := 0, _state := InputState.LOOK_FOR_DOLLA }) := by
      unfold update; simp only [hs]
    rw [this]; exact ⟨r1, r2, r3⟩
  | MESSAGE_READ =>
    obtain ⟨d1, _, d3, _⟩ := decode_queue t0 f0 (readSentence g)
    rw [update_of_read t0 f0 g hs]
    unfold Backpressure at r1 ⊢
    rw [d1, d3]
    exact ⟨r1, r2, r3⟩

theorem rx_irq_capacity (g : State) : (rx_irq g)._rxbuf.capacity = g._rxbuf.capacity := by
  obtain ⟨moved, _, _, h3, _⟩ := rx_fill_spec g.serial_rx g._rxbuf
  unfold rx_irq disable_rx_irq
  dsimp only
  split <;> exact h3

theorem rearm_capacity (g : State) : (rearm g)._rxbuf.capacity = g._rxbuf.capacity := by
  have h := rx_irq_capacity g
  unfold rearm enable_rx_irq
  dsimp only
  split
  · split
    · exact h
    · exact h
  · rfl

theorem readSentence_capacity (g : State) :
    (readSentence g)._rxbuf.capacity = g._rxbuf.capacity := by
  have q1 := (readLoop_queue_shrinks g._rxbuf.data g g._data_read).1
  unfold readSentence
  split
  · rfl
  · dsimp only
    split
    · exact q1
    · exact (rearm_capacity _).trans q1

theorem update_capacity (t0 : ℚ) (f0 : Int) (g : State) :
    (update t0 f0 g).2._rxbuf.capacity = g._rxbuf.capacity := by
  have hr := readSentence_capacity g
  cases hs : (readSentence g)._state with
  | LOOK_FOR_DOLLA =>
    have : update t0 f0 g = (false, readSentence g) := by unfold update; simp only [hs]
    rw [this]; exact hr
  | READING_MESSAGE =>
    have : update t0 f0 g = (false, readSentence g) := by unfold update; simp only [hs]
    rw [this]; exact hr
  | MESSAGE_OVERFLOW =>
    have : update t0 f0 g = (false, { readSentence g with
        _data_read := 0, _state := InputState.LOOK_FOR_DOLLA }) := by
      unfold update; simp only [hs]
    rw [this]; exact hr
  | MESSAGE_READ =>
    rw [update_of_read t0 f0 g hs, (decode_queue t0 f0 _).1]
    exact hr

theorem reachable_backpressure (g : State) (hg : Reachable g) (hcap : 0 < g._rxbuf.capacity) :
    Backpressure g := by
  induction hg with
  | construct mem cap h => exact ⟨Nat.zero_le _, fun _ => hcap⟩
  | arrive g bytes _ ih => exact ih hcap
  | irq g _ _ ih =>
    rw [rx_irq_capacity] at hcap
    exact (rx_irq_backpressure g (ih hcap).1).1
  | update g t0 f0 _ ih =>
    rw [update_capacity] at hcap
    exact (update_backpressure t0 f0 g (ih hcap)).1

/-- C17 (backpressure).  Over the steps "bytes arrive at the peripheral", `rx_irq` (while
armed) and `update()`, starting from construction with a ring buffer of positive capacity:
after every step the ring buffer holds at most its capacity and "receive interrupt armed"
implies "ring buffer not full"; `rx_irq` only appends bytes taken in order from the
peripheral, keeps everything queued before and never goes past the capacity, so it never
pushes into a full buffer; and an `update()` that finds the interrupt disarmed and leaves it
armed leaves the ring buffer not full. -/
theorem backpressure (g : State) (hg : Reachable g) (hcap : 0 < g._rxbuf.capacity) :
    (g._rx_irq_enabled = true → g._rxbuf.full = false) ∧
    g._rxbuf.data.length ≤ g._rxbuf.capacity ∧
    (∃ moved, g.serial_rx = moved ++ (rx_irq g).serial_rx ∧
      (rx_irq g)._rxbuf.data = g._rxbuf.data ++ moved ∧
      (rx_irq g)._rxbuf.data.length ≤ g._rxbuf.capacity) ∧
    (∀ (t0 : ℚ) (f0 : Int), g._rx_irq_enabled = false →
      (update t0 f0 g).2._rx_irq_enabled = true → (update t0 f0 g).2._rxbuf.full = false) := by
  have hb := reachable_backpressure g hg hcap
  refine ⟨fun ha => ?_, hb.1, ?_, fun t0 f0 => (update_backpressure t0 f0 g hb).2.2⟩
  · have := hb.2 ha
    simp only [CircularBuffer.full, decide_eq_false_iff_not, not_le]
    exact this
  · obtain ⟨moved, h1, h2, _, h4⟩ := rx_fill_spec g.serial_rx g._rxbuf
    refine ⟨moved, ?_, ?_, ?_⟩
    · unfold rx_irq disable_rx_irq
      dsimp only
      split <;> exact h1
    · unfold rx_irq disable_rx_irq
      dsimp only
      split <;> exact h2
    · unfold rx_irq disable_rx_irq
      dsimp only
      split <;> exact h4 hb.1

/-- Witness of C17: 256 bytes fill the ring buffer of a fresh station; the interrupt is
disarmed, and the `update()` that drains the buffer re-arms it. -/
theorem backpressure_example :
    (receive freshStation floodWire)._rxbuf.full = true ∧
    (receive freshStation floodWire)._rx_irq_enabled = false ∧
    (update 0 0 (receive freshStation floodWire)).2._rx_irq_enabled = true ∧
    (update 0 0 (receive freshStation floodWire)).2._rxbuf.full = false :=
  ⟨by decide!, by decide!, by decide!,
    (backpressure (receive freshStation floodWire)
      (reachable_receive _ _ reachable_freshStation rfl) (by decide!)).2.2.2 0 0
      (by decide!) (by decide!)⟩

/-! ### Chunked delivery -/

theorem storeBytes_terminated (buf body : List Char) (hlen : body.length < buf.length) :
    ((storeBytes buf 0 body).set body.length NUL).take (body.length + 1) = body ++ [NUL] := by
  have h1 : storeBytes buf 0 body = body ++ buf.drop body.length := by
    rw [storeBytes_eq body buf 0 (by omega)]
    simp
  obtain ⟨y, ys, hy⟩ : ∃ y ys, buf.drop body.length = y :: ys := by
    cases hd : buf.drop body.length with
    | nil =>
      have := congrArg List.length hd
      simp only [List.length_drop, List.length_nil] at this
      omega
    | cons y ys => exact ⟨y, ys, rfl⟩
  rw [h1, hy, List.set_append, if_neg (lt_irrefl _), Nat.sub_self, List.take_append]
  rfl

/-- Reading bytes of a sentence that is not yet complete. -/
theorem readLoop_reading_open (cs : List Char) : ∀ (g : State) (p : Nat),
    g._state = InputState.READING_MESSAGE → (∀ c ∈ cs, c ≠ '\r') →
    readLoop g p cs =
      ({ g with _sentence_buffer := storeBytes g._sentence_buffer p cs
                _data_read := g._data_read + cs.length
                _rxbuf := { g._rxbuf with data := [] } }, false) := by
  induction cs with
  | nil => intro g p _ _; rfl
  | cons c cs ih =>
    intro g p hs hcr
    have hc : c ≠ '\r' := hcr c (List.mem_cons_self _ _)
    have hcs : ∀ x ∈ cs, x ≠ '\r' := fun x hx => hcr x (List.mem_cons_of_mem _ hx)
    conv => lhs; unfold readLoop
    simp only [hs, hc, if_false]
    rw [ih _ _ ?_ hcs]
    · simp only [storeBytes, List.length_cons]
      have e2 : g._data_read + 1 + cs.length = g._data_read + (cs.length + 1) := by omega
      rw [e2]
    · rfl

theorem rearm_idle (g : State) (h : g.serial_rx = []) :
    (rearm g)._rxbuf = g._rxbuf ∧ (rearm g).serial_rx = [] := by
  have hf : rx_fill g.serial_rx g._rxbuf = ([], g._rxbuf) := by rw [h]; rfl
  have hi : (rx_irq g)._rxbuf = g._rxbuf ∧ (rx_irq g).serial_rx = [] := by
    unfold rx_irq disable_rx_irq
    dsimp only
    rw [hf]
    split <;> exact ⟨rfl, rfl⟩
  unfold rearm enable_rx_irq
  dsimp only
  split
  · split
    · exact hi
    · exact hi
  · exact ⟨rfl, h⟩

theorem append_eq_snoc_split (c r x : List Char) (z : Char) (h : c ++ r = x ++ [z])
    (hr : r ≠ []) : ∃ x2, x = c ++ x2 ∧ r = x2 ++ [z] := by
  rcases List.append_eq_append_iff.mp h with ⟨a, h1, h2⟩ | ⟨a, h1, h2⟩
  · exact ⟨a, h1, h2⟩
  · cases a with
    | nil =>
      refine ⟨[], ?_, ?_⟩
      · simpa using h1.symm
      · simpa using h2.symm
    | cons y ys =>
      exfalso
      have hl := congrArg List.length h2
      simp only [List.length_cons, List.length_nil, List.length_append] at hl
      have : r.length = 0 := by omega
      exact hr (List.length_eq_zero.mp this)

/-- What one invocation on a queue without a carriage return does to a framer that reads a
message. -/
theorem readSentence_reading_open (g : State) (c : List Char)
    (hs : g._state = InputState.READING_MESSAGE) (hd : g._data_read ≠ MAX_SENTENCE_SIZE)
    (hq : g._rxbuf.data = c) (hw : g.serial_rx = []) (hcr : ∀ x ∈ c, x ≠ '\r') :
    (readSentence g)._state = InputState.READING_MESSAGE ∧
    (readSentence g)._sentence_buffer = storeBytes g._sentence_buffer g._data_read c ∧
    (readSentence g)._data_read = g._data_read + c.length ∧
    (readSentence g)._rxbuf.data = [] ∧ (readSentence g).serial_rx = [] := by
  have hr : readSentence g = rearm
      { g with _sentence_buffer := storeBytes g._sentence_buffer g._data_read c
               _data_read := g._data_read + c.length
               _rxbuf := { g._rxbuf with data := [] } } := by
    unfold readSentence
    rw [if_neg hd, hq]
    dsimp only
    rw [readLoop_reading_open c g _ hs hcr]
    rfl
  obtain ⟨_, f2, f3, f4⟩ := rearm_frame
      { g with _sentence_buffer := storeBytes g._sentence_buffer g._data_read c
               _data_read := g._data_read + c.length
               _rxbuf := { g._rxbuf with data := [] } }
  obtain ⟨i1, i2⟩ := rearm_idle
      { g with _sentence_buffer := storeBytes g._sentence_buffer g._data_read c
               _data_read := g._data_read + c.length
               _rxbuf := { g._rxbuf with data := [] } } hw
  rw [hr, f2, f3, f4, i1, i2]
  exact ⟨hs, rfl, rfl, rfl, rfl⟩

theorem readSentence_empty_queue (g : State) (hd : g._data_read ≠ MAX_SENTENCE_SIZE)
    (hq : g._rxbuf.data = []) (hw : g.serial_rx = []) :
    (readSentence g)._state = g._state ∧
    (readSentence g)._sentence_buffer = g._sentence_buffer ∧
    (readSentence g)._data_read = g._data_read ∧
    (readSentence g)._rxbuf.data = [] ∧ (readSentence g).serial_rx = [] := by
  have hr : readSentence g = rearm { g with _rxbuf := { g._rxbuf with data := [] } } := by
    unfold readSentence
    rw [if_neg hd, hq]
    rfl
  obtain ⟨_, f2, f3, f4⟩ := rearm_frame { g with _rxbuf := { g._rxbuf with data := [] } }
  obtain ⟨i1, i2⟩ := rearm_idle { g with _rxbuf := { g._rxbuf with data := [] } } hw
  rw [hr, f2, f3, f4, i1, i2]
  exact ⟨rfl, rfl, rfl, rfl, rfl⟩

theorem readSentence_dollar_open (g : State) (c : List Char)
    (hs : g._state = InputState.LOOK_FOR_DOLLA) (hd : g._data_read ≠ MAX_SENTENCE_SIZE)
    (hq : g._rxbuf.data = '$' :: c) (hw : g.serial_rx = []) (hcr : ∀ x ∈ c, x ≠ '\r') :
    (readSentence g)._state = InputState.READING_MESSAGE ∧
    (readSentence g)._sentence_buffer = storeBytes g._sentence_buffer g._data_read c ∧
    (readSentence g)._data_read = g._data_read + c.length ∧
    (readSentence g)._rxbuf.data = [] ∧ (readSentence g).serial_rx = [] := by
  have hr : readSentence g = rearm
      { g with _sentence_buffer := storeBytes g._sentence_buffer g._data_read c
               _state := InputState.READING_MESSAGE
               _data_read := g._data_read + c.length
               _rxbuf := { g._rxbuf with data := [] } } := by
    unfold readSentence
    rw [if_neg hd, hq]
    dsimp only
    rw [readLoop_dollar g _ _ hs, readLoop_reading_open c _ _ ?_ hcr]
    · rfl
    · rfl
  obtain ⟨_, f2, f3, f4⟩ := rearm_frame
      { g with _sentence_buffer := storeBytes g._sentence_buffer g._data_read c
               _state := InputState.READING_MESSAGE
               _data_read := g._data_read + c.length
               _rxbuf := { g._rxbuf with data := [] } }
  obtain ⟨i1, i2⟩ := rearm_idle
      { g with _sentence_buffer := storeBytes g._sentence_buffer g._data_read c
               _state := InputState.READING_MESSAGE
               _data_read := g._data_read + c.length
               _rxbuf := { g._rxbuf with data := [] } } hw
  rw [hr, f2, f3, f4, i1, i2]
  exact ⟨rfl, rfl, rfl, rfl, rfl⟩

theorem enqueue_empty (g : State) (c : List Char) (hq : g._rxbuf.data = []) :
    (enqueue g c)._rxbuf.data = c := by
  show g._rxbuf.data ++ c = c
  rw [hq]; rfl

/-- One invocation on a chunk that does not yet bring the carriage return. -/
theorem framing_step (buf0 body : List Char) (hlen : body.length < MAX_SENTENCE_SIZE)
    (hcr : ∀ c ∈ body, c ≠ '\r') (g : State) (c r : List Char) (hr : r ≠ [])
    (hF : Framing buf0 body g (c ++ r)) :
    Framing buf0 body (readSentence (enqueue g c)) r := by
  obtain ⟨hq, hw, pre, suf, hbody, hbuf, hdr, hphase⟩ := hF
  have hpl : pre.length ≤ body.length := by rw [hbody]; simp
  have hd : (enqueue g c)._data_read ≠ MAX_SENTENCE_SIZE := by
    show g._data_read ≠ MAX_SENTENCE_SIZE
    omega
  have hqc := enqueue_empty g c hq
  have hwc : (enqueue g c).serial_rx = [] := hw
  rcases hphase with ⟨hs, hpre, hrem⟩ | ⟨hs, hrem⟩
  · subst hpre
    cases c with
    | nil =>
      obtain ⟨e1, e2, e3, e4, e5⟩ := readSentence_empty_queue (enqueue g []) hd hqc hwc
      refine ⟨e4, e5, [], suf, hbody, ?_, ?_, Or.inl ⟨?_, rfl, ?_⟩⟩
      · rw [e2]; exact hbuf
      · rw [e3]; exact hdr
      · rw [e1]; exact hs
      · simpa using hrem
    | cons x c2 =>
      rw [List.cons_append] at hrem
      injection hrem with hx htl
      subst hx
      obtain ⟨x2, hsuf, hr2⟩ := append_eq_snoc_split c2 r suf '\r' htl hr
      have hc2 : ∀ y ∈ c2, y ≠ '\r' := by
        intro y hy
        exact hcr y (by rw [hbody, hsuf]; simp [hy])
      obtain ⟨e1, e2, e3, e4, e5⟩ :=
        readSentence_dollar_open (enqueue g ('$' :: c2)) c2 hs hd hqc hwc hc2
      refine ⟨e4, e5, c2, x2, ?_, ?_, ?_, Or.inr ⟨e1, hr2⟩⟩
      · rw [hbody, hsuf]; rfl
      · rw [e2]
        show storeBytes g._sentence_buffer g._data_read c2 = storeBytes buf0 0 c2
        rw [hbuf, hdr]; rfl
      · rw [e3]
        show g._data_read + c2.length = c2.length
        rw [hdr]; simp
  · obtain ⟨x2, hsuf, hr2⟩ := append_eq_snoc_split c r suf '\r' hrem hr
    have hc : ∀ y ∈ c, y ≠ '\r' := by
      intro y hy
      exact hcr y (by rw [hbody, hsuf]; simp [hy])
    obtain ⟨e1, e2, e3, e4, e5⟩ :=
      readSentence_reading_open (enqueue g c) c hs hd hqc hwc hc
    refine ⟨e4, e5, pre ++ c, x2, ?_, ?_, ?_, Or.inr ⟨e1, hr2⟩⟩
    · rw [hbody, hsuf, List.append_assoc]
    · rw [e2]
      show storeBytes g._sentence_buffer g._data_read c = storeBytes buf0 0 (pre ++ c)
      rw [hbuf, hdr, storeBytes_append, Nat.zero_add]
    · rw [e3]
      show g._data_read + c.length = (pre ++ c).length
      rw [hdr, List.length_append]

/-- The invocation on the chunk that ends with the carriage return. -/
theorem framing_final (buf0 body : List Char) (hlen : body.length < MAX_SENTENCE_SIZE)
    (hcr : ∀ c ∈ body, c ≠ '\r') (hb0 : buf0.length = SENTENCE_BUFFER_SIZE)
    (g : State) (last : List Char) (hF : Framing buf0 body g last) :
    (readSentence (enqueue g last))._state = InputState.MESSAGE_READ ∧
    (readSentence (enqueue g last))._sentence_buffer.take (body.length + 1) = body ++ [NUL] ∧
    (readSentence (enqueue g last))._data_read = body.length := by
  obtain ⟨hq, hw, pre, suf, hbody, hbuf, hdr, hphase⟩ := hF
  have hpl : pre.length ≤ body.length := by rw [hbody]; simp
  have hlt : body.length < buf0.length := by
    rw [hb0]; simp only [MAX_SENTENCE_SIZE] at hlen; simp only [SENTENCE_BUFFER_SIZE]; omega
  have hd : (enqueue g last)._data_read ≠ MAX_SENTENCE_SIZE := by
    show g._data_read ≠ MAX_SENTENCE_SIZE
    omega
  have hqc := enqueue_empty g last hq
  have hsuf : ∀ y ∈ suf, y ≠ '\r' := by
    intro y hy
    exact hcr y (by rw [hbody]; simp [hy])
  have hterm := storeBytes_terminated buf0 body hlt
  have key : readSentence (enqueue g last) =
      { enqueue g last with
        _sentence_buffer := (storeBytes buf0 0 body).set body.length NUL
        _state := InputState.MESSAGE_READ
        _data_read := body.length
        _rxbuf := { (enqueue g last)._rxbuf with data := [] } } := by
    unfold readSentence
    rw [if_neg hd, hqc]
    dsimp only
    rcases hphase with ⟨hs, hpre, hrem⟩ | ⟨hs, hrem⟩
    · subst hpre
      subst hrem
      rw [readLoop_dollar (enqueue g ('$' :: (suf ++ ['\r']))) _ _ hs,
        readLoop_reading suf [] _ _ ?_ hsuf]
      · dsimp only
        have e1 : (enqueue g ('$' :: (suf ++ ['\r'])))._sentence_buffer = buf0 := hbuf
        have e2 : (enqueue g ('$' :: (suf ++ ['\r'])))._data_read = 0 := hdr
        have e3 : body = suf := hbody
        rw [e1, e2, e3, Nat.zero_add]
        rfl
      · rfl
    · subst hrem
      rw [readLoop_reading suf [] (enqueue g (suf ++ ['\r'])) _ hs hsuf]
      dsimp only
      have e1 : (enqueue g (suf ++ ['\r']))._sentence_buffer = storeBytes buf0 0 pre := hbuf
      have e2 : (enqueue g (suf ++ ['\r']))._data_read = pre.length := hdr
      have e4 : pre.length + suf.length = body.length := by rw [hbody, List.length_append]
      have e5 : storeBytes (storeBytes buf0 0 pre) pre.length suf = storeBytes buf0 0 body := by
        rw [hbody, storeBytes_append, Nat.zero_add]
      rw [e1, e2, e5, e4]
      rfl
  rw [key]
  exact ⟨rfl, hterm, rfl⟩

theorem join_snoc_ne_nil (cs : List (List Char)) (last : List Char) (h : last ≠ []) :
    (cs ++ [last]).flatten ≠ [] := by
  intro hj
  simp only [List.flatten_append, List.flatten_cons, List.flatten_nil, List.append_nil,
    List.append_eq_nil] at hj
  exact h hj.2

theorem Framing.state (buf0 body : List Char) (g : State) (rest : List Char)
    (h : Framing buf0 body g rest) :
    g._state = InputState.LOOK_FOR_DOLLA ∨ g._state = InputState.READING_MESSAGE := by
  obtain ⟨_, _, _, _, _, _, _, hp⟩ := h
  rcases hp with ⟨hs, _⟩ | ⟨hs, _⟩
  · exact Or.inl hs
  · exact Or.inr hs

theorem frameRun_chunks (buf0 body : List Char) (hlen : body.length < MAX_SENTENCE_SIZE)
    (hcr : ∀ c ∈ body, c ≠ '\r') (hb0 : buf0.length = SENTENCE_BUFFER_SIZE)
    (last : List Char) (hlast : last ≠ []) :
    ∀ (chunks : List (List Char)) (g : State) (rest : List Char),
      Framing buf0 body g rest → (chunks ++ [last]).flatten = rest →
      (∀ k, k ≤ chunks.length →
        ((frameRun g (chunks.take k))._state = InputState.LOOK_FOR_DOLLA ∨
          (frameRun g (chunks.take k))._state = InputState.READING_MESSAGE)) ∧
      (frameRun g (chunks ++ [last]))._state = InputState.MESSAGE_READ ∧
      (frameRun g (chunks ++ [last]))._sentence_buffer.take (body.length + 1)
        = body ++ [NUL] ∧
      (frameRun g (chunks ++ [last]))._data_read = body.length := by
  intro chunks
  induction chunks with
  | nil =>
    intro g rest hF hj
    have hl : last = rest := by simpa using hj
    subst hl
    refine ⟨fun k _ => ?_, framing_final buf0 body hlen hcr hb0 g last hF⟩
    rw [List.take_nil]
    exact Framing.state buf0 body g last hF
  | cons c cs ih =>
    intro g rest hF hj
    have hj2 : c ++ (cs ++ [last]).flatten = rest := by simpa using hj
    subst hj2
    have hstep := framing_step buf0 body hlen hcr g c _ (join_snoc_ne_nil cs last hlast) hF
    obtain ⟨i1, i2⟩ := ih (readSentence (enqueue g c)) _ hstep rfl
    refine ⟨fun k hk => ?_, i2⟩
    cases k with
    | zero => exact Framing.state buf0 body g _ hF
    | succ k =>
      rw [List.take_succ_cons]
      exact i1 k (by simpa using hk)

/-- C13 (framing is independent of chunking).  Let `body` have fewer than
`MAX_SENTENCE_SIZE` bytes, none of them a carriage return, and let `$ body \r` be cut into
chunks in any way, `last` being the chunk that holds the carriage return.  Starting in
`LOOK_FOR_DOLLA` with write cursor 0 and nothing queued, and invoking `readSentence` once
per chunk: after any number of the earlier invocations the framer is in `LOOK_FOR_DOLLA` or
`READING_MESSAGE`, and after the invocation on `last` it is in `MESSAGE_READ`, the working
buffer starts with `body` followed by NUL, and the write cursor is the length of `body`. -/
theorem framing_chunk_independent (body : List Char) (hlen : body.length < MAX_SENTENCE_SIZE)
    (hcr : ∀ c ∈ body, c ≠ '\r') (chunks : List (List Char)) (last : List Char)
    (hlast : last ≠ []) (hjoin : (chunks ++ [last]).flatten = '$' :: (body ++ ['\r']))
    (g : State) (hs : g._state = InputState.LOOK_FOR_DOLLA) (hd : g._data_read = 0)
    (hq : g._rxbuf.data = []) (hw : g.serial_rx = [])
    (hbuf : g._sentence_buffer.length = SENTENCE_BUFFER_SIZE) :
    (∀ k, k ≤ chunks.length →
      ((frameRun g (chunks.take k))._state = InputState.LOOK_FOR_DOLLA ∨
        (frameRun g (chunks.take k))._state = InputState.READING_MESSAGE)) ∧
    (frameRun g (chunks ++ [last]))._state = InputState.MESSAGE_READ ∧
    (frameRun g (chunks ++ [last]))._sentence_buffer.take (body.length + 1) = body ++ [NUL] ∧
    (frameRun g (chunks ++ [last]))._data_read = body.length :=
  frameRun_chunks g._sentence_buffer body hlen hcr hbuf last hlast chunks g _
    ⟨hq, hw, [], body, rfl, rfl, hd, Or.inl ⟨hs, rfl, rfl⟩⟩ hjoin

/-- Witness of C13: the quoted report delivered in four chunks, one of them empty. -/
theorem framing_chunk_independent_example :
    (["$GPGGA,0920".toList, [], "10.000,5210.9546,N,00008.8913,E,1,07,1.3,9".toList]
        ++ [".7,M,47.0,M,,0000*5D\r".toList]).flatten = '$' :: (exampleSentence.body ++ ['\r']) ∧
    (frameRun freshStation
      (["$GPGGA,0920".toList, [], "10.000,5210.9546,N,00008.8913,E,1,07,1.3,9".toList].take 2)
      )._state = InputState.READING_MESSAGE ∧
    (frameRun freshStation
      (["$GPGGA,0920".toList, [], "10.000,5210.9546,N,00008.8913,E,1,07,1.3,9".toList]
        ++ [".7,M,47.0,M,,0000*5D\r".toList]))._state = InputState.MESSAGE_READ ∧
    (frameRun freshStation
      (["$GPGGA,0920".toList, [], "10.000,5210.9546,N,00008.8913,E,1,07,1.3,9".toList]
        ++ [".7,M,47.0,M,,0000*5D\r".toList]))._sentence_buffer.take
          (exampleSentence.body.length + 1) = exampleSentence.body ++ [NUL] := by
  have h := framing_chunk_independent exampleSentence.body (by decide) (by decide)
    ["$GPGGA,0920".toList, [], "10.000,5210.9546,N,00008.8913,E,1,07,1.3,9".toList]
    ".7,M,47.0,M,,0000*5D\r".toList (by decide) (by decide) freshStation rfl rfl rfl rfl
    (List.length_replicate _ _)
  exact ⟨by decide, by decide!, h.2.1, h.2.2.1⟩

end GPS
